import Mathlib

/-!
# Verification of the shizuku lexer

Shallow embedding of `crates/shizuku-parser/src/lexer/{mod.rs, number.rs, utils.rs}`
and `crates/shizuku-parser/src/token.rs`.

The lexer consumes a stream of `(offset, char)` pairs through a two-character
lookahead cursor, buffers emitted tokens in a FIFO `pending` queue, and scans
numeric literals with an explicit finite-state machine.  Loops in the Rust
source are modelled as fuel-indexed structural recursions; every top-level
entry point passes fuel derived from the lexer state that provably suffices,
so the fuel never runs out on the states the claims are about.
-/

namespace Shizuku

/-- Characters, as in the Rust `char` type. -/
abbrev Chr := Char

/-- Owned text, modelling `EcoString` as a list of characters. -/
abbrev Str := List Char

/-- Byte/char offsets, `pub type LOC = u32` (modelled as `Nat`; the lexer only
ever increments offsets, so no wraparound arises for the inputs modelled). -/
abbrev LOC := Nat

/-- `utils.rs`: `is_whitespace`, the `Pattern_White_Space` set hard-coded in the
source. -/
def is_whitespace (c : Chr) : Bool :=
  c = '\u0009' || c = '\u000A' || c = '\u000B' || c = '\u000C' || c = '\u000D' ||
  c = '\u0020' || c = '\u0085' || c = '\u200E' || c = '\u200F' ||
  c = '\u2028' || c = '\u2029'

/-- Modelled from the spec: the source delegates non-ASCII identifier-start
classification to the external `unicode_xid` crate, which is not part of this
repository (the spec lists source decoding and Unicode classification as
external collaborators).  We model the external classifier as `false`, so the
identifiers of this development are exactly the ASCII ones; every claim below
only exercises ASCII identifiers, where the source never consults the crate. -/
def xid_start (_ : Chr) : Bool := false

/-- Modelled from the spec: see `xid_start`. -/
def xid_continue (_ : Chr) : Bool := false

/-- `utils.rs`: `is_id_start`. -/
def is_id_start (c : Chr) : Bool :=
  c.isLower || c.isUpper || c = '_' || (decide (c > '\x7f') && xid_start c)

/-- `utils.rs`: `is_id_continue`. -/
def is_id_continue (c : Chr) : Bool :=
  c.isLower || c.isUpper || c.isDigit || c = '_' ||
    (decide (c > '\x7f') && xid_continue c)

/-- `char::is_ascii_digit`. -/
def is_ascii_digit (c : Chr) : Bool := '0' ≤ c && c ≤ '9'

/-- `char::is_ascii_hexdigit`. -/
def is_ascii_hexdigit (c : Chr) : Bool :=
  is_ascii_digit c || ('a' ≤ c && c ≤ 'f') || ('A' ≤ c && c ≤ 'F')

/-- `char::is_ascii_octdigit`. -/
def is_ascii_octdigit (c : Chr) : Bool := '0' ≤ c && c ≤ '7'

/-- `token.rs`: `Base`, the radix of an integer literal. -/
inductive Base where
  | Binary
  | Octal
  | Decimal
  | Hexadecimal
deriving DecidableEq, Repr

/-- `token.rs`: `Token`.  Text-carrying variants own their text (`EcoString`
modelled as `Str`). -/
inductive Token where
  | Ident (name : Str)
  | Int (base : Base) (value : Str)
  | Float (has_exp : Bool) (value : Str)
  | Char (value : Chr)
  | String (value : Str)
  | Comment (content : Str)
  | CommentDoc (content : Str)
  | LParen
  | RParen
  | LBracket
  | RBracket
  | LBrace
  | RBrace
  | Semicolon
  | Plus
  | Minus
  | Asterisk
  | Slash
  | LArrow
  | RArrow
  | LArrowEqual
  | RArrowEqual
  | Percent
  | Colon
  | Comma
  | Hash
  | Equal
  | Equal2
  | ExclamationEqual
  | Pipe
  | Amper
  | LArrow2
  | RArrow2
  | PipeRArrow
  | Dot
  | LArrowMinus
  | MinusRArrow
  | Dot2
  | At
  | EOF
  | Question
  | Exclamation
  | NewLine
  | As
  | Const
  | Fn
  | If
  | Else
  | And
  | Or
  | Import
  | Let
  | Type
  | Opaque
  | Pub
  | Struct
  | Enum
  | Break
  | Continue
  | Async
  | Await
  | Return
  | Test

/-- `token.rs`: `Token::try_from_keywords`. -/
def Token.try_from_keywords (word : Str) : Option Token :=
  if word = ['a', 's'] then some Token.As
  else if word = ['c', 'o', 'n', 's', 't'] then some Token.Const
  else if word = ['f', 'n'] then some Token.Fn
  else if word = ['i', 'f'] then some Token.If
  else if word = ['e', 'l', 's', 'e'] then some Token.Else
  else if word = ['a', 'n', 'd'] then some Token.And
  else if word = ['o', 'r'] then some Token.Or
  else if word = ['i', 'm', 'p', 'o', 'r', 't'] then some Token.Import
  else if word = ['l', 'e', 't'] then some Token.Let
  else if word = ['t', 'y', 'p', 'e'] then some Token.Type
  else if word = ['o', 'p', 'a', 'q', 'u', 'e'] then some Token.Opaque
  else if word = ['p', 'u', 'b'] then some Token.Pub
  else if word = ['s', 't', 'r', 'u', 'c', 't'] then some Token.Struct
  else if word = ['e', 'n', 'u', 'm'] then some Token.Enum
  else if word = ['b', 'r', 'e', 'a', 'k'] then some Token.Break
  else if word = ['c', 'o', 'n', 't', 'i', 'n', 'u', 'e'] then some Token.Continue
  else if word = ['a', 's', 'y', 'n', 'c'] then some Token.Async
  else if word = ['a', 'w', 'a', 'i', 't'] then some Token.Await
  else if word = ['r', 'e', 't', 'u', 'r', 'n'] then some Token.Return
  else if word = ['t', 'e', 's', 't'] then some Token.Test
  else none

/-- `span.rs` (re-exported by `lib.rs`): `SrcSpan { start, end }`.  The second
field is called `end` in the source; `end` is a Lean keyword, hence the
guillemets. -/
structure SrcSpan where
  start : LOC
  «end» : LOC
deriving DecidableEq, Repr

/-- `lexer/mod.rs`: `LexicalErrorType`. -/
inductive LexicalErrorType where
  | UnexpectedStringEnd
  | UnrecognizedToken (tok : Chr)
  | IllegalLiteral (tok : Chr)
  | UnexpectedCharEnd
  | EmptyCharLiteral
deriving DecidableEq, Repr

/-- `lexer/mod.rs`: `LexicalError { error, location }`. -/
structure LexicalError where
  error : LexicalErrorType
  location : SrcSpan
deriving DecidableEq, Repr

/-- `lexer/mod.rs`: `pub type Spanned = (LOC, Token, LOC)`. -/
abbrev Spanned := LOC × Token × LOC

/-- `lexer/number.rs`: `State`, the numeric-literal FSM states. -/
inductive State where
  | Start
  | Sign
  | Zero
  | Int
  | Dot
  | Frac
  | Exp
  | ExpSign
  | ExpInt
  | Hex
  | Oct
  | Bin
  | IntUnderscore
  | ExpIntUnderscore
  | FracUnderscore
  | HexUnderscore
  | OctUnderscore
  | BinUnderscore
  | End
  | Error
deriving DecidableEq, Repr

/-- `lexer/number.rs`: the `matches!` test at the top of `state_transition`
selecting the states from which whitespace or end-of-input terminates the
literal. -/
def State.terminable : State → Bool
  | State.Zero => true
  | State.Int => true
  | State.Dot => true
  | State.Frac => true
  | State.ExpInt => true
  | State.Hex => true
  | State.Oct => true
  | State.Bin => true
  | _ => false

/-- `lexer/number.rs`: `state_transition`.  The source `panic!`s when called on
the final states `End`/`Error`; the scanning loop never does that (it stops as
soon as either final state is produced), and we model those two dead arms as
`Error`. -/
def state_transition (state : State) (chr : Option Chr) : State :=
  match chr with
  | none => if state.terminable then State.End else State.Error
  | some chr =>
    if is_whitespace chr then
      if state.terminable then State.End else State.Error
    else
      match state with
      | State.Start =>
        if chr = '+' || chr = '-' then State.Sign
        else if chr = '0' then State.Zero
        else if is_ascii_digit chr then State.Int
        else if chr = '.' then State.Dot
        else State.Error
      | State.Sign =>
        if chr = '0' then State.Zero
        else if is_ascii_digit chr then State.Int
        else if chr = '.' then State.Dot
        else State.Error
      | State.Zero =>
        if chr = 'x' || chr = 'X' then State.Hex
        else if chr = 'o' || chr = 'O' then State.Oct
        else if chr = 'b' || chr = 'B' then State.Bin
        else if chr = '.' then State.Dot
        else if chr = 'e' || chr = 'E' then State.Exp
        else if chr = '0' then State.Zero
        else State.Error
      | State.Int =>
        if is_ascii_digit chr then State.Int
        else if chr = '.' then State.Dot
        else if chr = 'e' || chr = 'E' then State.Exp
        else if chr = '_' then State.IntUnderscore
        else State.Error
      | State.Dot =>
        if is_ascii_digit chr then State.Frac else State.Error
      | State.Frac =>
        if is_ascii_digit chr then State.Frac
        else if chr = 'e' || chr = 'E' then State.Exp
        else if chr = '_' then State.FracUnderscore
        else State.Error
      | State.Exp =>
        if chr = '+' || chr = '-' then State.ExpSign
        else if is_ascii_digit chr then State.ExpInt
        else State.Error
      | State.ExpSign =>
        if is_ascii_digit chr then State.ExpInt else State.Error
      | State.ExpInt =>
        if is_ascii_digit chr then State.ExpInt
        else if chr = '_' then State.ExpIntUnderscore
        else State.Error
      | State.Hex =>
        if is_ascii_hexdigit chr then State.Hex
        else if chr = '_' then State.HexUnderscore
        else State.Error
      | State.Oct =>
        if is_ascii_octdigit chr then State.Oct
        else if chr = '_' then State.OctUnderscore
        else State.Error
      | State.Bin =>
        if chr = '0' || chr = '1' then State.Bin
        else if chr = '_' then State.BinUnderscore
        else State.Error
      | State.IntUnderscore =>
        if is_ascii_digit chr then State.Int else State.Error
      | State.FracUnderscore =>
        if is_ascii_digit chr then State.Frac else State.Error
      | State.ExpIntUnderscore =>
        if is_ascii_digit chr then State.ExpInt else State.Error
      | State.HexUnderscore =>
        if is_ascii_hexdigit chr then State.Hex else State.Error
      | State.OctUnderscore =>
        if '0' ≤ chr && chr ≤ '7' then State.Oct else State.Error
      | State.BinUnderscore =>
        if chr = '0' || chr = '1' then State.Bin else State.Error
      | State.End => State.Error
      | State.Error => State.Error

/-- `lexer/mod.rs`: the `Lexer` struct.  The caller-supplied iterator of
`(offset, char)` pairs is modelled as a list. -/
structure Lexer where
  stream : List (LOC × Chr)
  pending : List Spanned
  chr0 : Option Chr
  chr1 : Option Chr
  loc0 : LOC
  loc1 : LOC
  location : LOC

/-- `Lexer::consume`: returns the current character and advances the
two-character lookahead window; past the end of the stream the offsets keep
advancing by one per call. -/
def Lexer.consume (l : Lexer) : Option Chr × Lexer :=
  match l.stream with
  | (loc, c) :: rest =>
    (l.chr0, { l with stream := rest, loc0 := l.loc1, loc1 := loc,
                      chr0 := l.chr1, chr1 := some c })
  | [] =>
    (l.chr0, { l with loc0 := l.loc1, loc1 := l.loc1 + 1,
                      chr0 := l.chr1, chr1 := none })

/-- `Lexer::new`: primes the window with two consumes. -/
def Lexer.new (stream : List (LOC × Chr)) : Lexer :=
  let l : Lexer :=
    { stream := stream, pending := [], location := 0,
      chr0 := none, loc0 := 0, chr1 := none, loc1 := 0 }
  let l := l.consume.2
  let l := l.consume.2
  { l with location := 0 }

/-- `Lexer::next_chr_is`. -/
def Lexer.next_chr_is (l : Lexer) (predicate : Chr → Bool) : Bool :=
  (l.chr1.map predicate).getD false

/-- `Lexer::get_pos`. -/
def Lexer.get_pos (l : Lexer) : LOC := l.loc0

/-- `Lexer::emit`: pushes a token onto the pending FIFO queue. -/
def Lexer.emit (l : Lexer) (spanned : Spanned) : Lexer :=
  { l with pending := l.pending ++ [spanned] }

/-- Consume `n` characters in sequence (the loop body of
`consume_expect_token`). -/
def Lexer.consumeN (l : Lexer) : Nat → Lexer
  | 0 => l
  | n + 1 => l.consume.2.consumeN n

/-- `Lexer::consume_expect_token`: consumes `char_count` characters and emits
`expected_token` over the consumed span. -/
def Lexer.consume_expect_token (l : Lexer) (expected_token : Token)
    (char_count : Nat) : Lexer :=
  let start_pos := l.get_pos
  let l := l.consumeN char_count
  let end_pos := l.get_pos
  l.emit (start_pos, expected_token, end_pos)

/-- The content loop of `consume_comment_or_doc`:
`while chr0 != Some('\n') { match chr0 { Some c => push c, None => break }; consume }`.
Fuel-indexed; callers pass enough fuel that the fallback arm is never taken. -/
def comment_loop : Nat → Lexer → Str → Lexer × Str
  | 0, l, content => (l, content)
  | fuel + 1, l, content =>
    if l.chr0 = some '\n' then (l, content)
    else
      match l.chr0 with
      | some c => comment_loop fuel l.consume.2 (content ++ [c])
      | none => (l, content)

/-- `Lexer::consume_comment_or_doc`: assumes `chr0 = chr1 = '/'`; a third slash
makes it a doc comment; content stops before the first newline, which is left
unconsumed.  Returns the spanned token; the caller emits it. -/
def Lexer.consume_comment_or_doc (l : Lexer) : Spanned × Lexer :=
  let l0 := l.consume.2
  let l := if l0.chr1 = some '/' then l0.consume.2.consume.2 else l0.consume.2
  let start_pos := l.get_pos
  let (l, content) := comment_loop (l.stream.length + 3) l []
  let end_pos := l.get_pos
  let token :=
    if l0.chr1 = some '/' then Token.CommentDoc content else Token.Comment content
  ((start_pos, token, end_pos), l)

/-- The accumulation loop of `consume_ident_or_keyword`. -/
def ident_loop : Nat → Lexer → Str → Lexer × Str
  | 0, l, name => (l, name)
  | fuel + 1, l, name =>
    match l.chr0 with
    | some chr =>
      if is_id_continue chr then ident_loop fuel l.consume.2 (name ++ [chr])
      else (l, name)
    | none => (l, name)

/-- `Lexer::consume_ident_or_keyword`: assumes `chr0` is an id-start character
(the source asserts this; the `none` arm mirrors `unwrap` on a state the
dispatcher never produces). -/
def Lexer.consume_ident_or_keyword (l : Lexer) : Spanned × Lexer :=
  let start := l.get_pos
  let name : Str :=
    match l.chr0 with
    | some c => [c]
    | none => []
  let l := l.consume.2
  let (l, name) := ident_loop (l.stream.length + 3) l name
  let stop := l.get_pos
  match Token.try_from_keywords name with
  | some token => ((start, token, stop), l)
  | none => ((start, Token.Ident name, stop), l)

/-- `Lexer::consume_char_literal`: assumes `chr0 = '\''`. -/
def Lexer.consume_char_literal (l : Lexer) :
    Except LexicalError (Spanned × Lexer) :=
  let start := l.get_pos
  let l := l.consume.2
  match l.chr0 with
  | some c =>
    if c = '\'' then
      let l := l.consume.2
      .error { error := LexicalErrorType.EmptyCharLiteral,
               location := { start := start, «end» := l.get_pos } }
    else
      let l := l.consume.2
      if l.chr0 = some '\'' then
        let l := l.consume.2
        .ok ((start, Token.Char c, l.get_pos), l)
      else
        .error { error := LexicalErrorType.UnexpectedCharEnd,
                 location := { start := start, «end» := l.get_pos } }
  | none =>
    .error { error := LexicalErrorType.UnexpectedCharEnd,
             location := { start := start, «end» := start + 1 } }

/-- The accumulation loop of `consume_string_literal`:
`while let Some(c) = chr0 { if c = '"' { break }; push c; consume }`. -/
def string_loop : Nat → Lexer → Str → Lexer × Str
  | 0, l, value => (l, value)
  | fuel + 1, l, value =>
    match l.chr0 with
    | some c =>
      if c = '"' then (l, value)
      else string_loop fuel l.consume.2 (value ++ [c])
    | none => (l, value)

/-- `Lexer::consume_string_literal`: assumes `chr0 = '"'`. -/
def Lexer.consume_string_literal (l : Lexer) :
    Except LexicalError (Spanned × Lexer) :=
  let start := l.get_pos
  let l := l.consume.2
  let (l, value) := string_loop (l.stream.length + 3) l []
  if l.chr0 = some '"' then
    let l := l.consume.2
    .ok ((start, Token.String value, l.get_pos), l)
  else
    .error { error := LexicalErrorType.UnexpectedStringEnd,
             location := { start := start, «end» := l.get_pos } }

/-- Map a terminal FSM state to the produced token (the `match state` at the
end of `consume_number_like`); `none` models the source's `unreachable!` arm,
which `number_loop_ok_terminable` below shows is never taken. -/
def end_token (state : State) (value : Str) : Option Token :=
  match state with
  | State.Bin => some (Token.Int Base.Binary value)
  | State.Oct => some (Token.Int Base.Octal value)
  | State.Int => some (Token.Int Base.Decimal value)
  | State.Zero => some (Token.Int Base.Decimal value)
  | State.Hex => some (Token.Int Base.Hexadecimal value)
  | State.ExpInt => some (Token.Float true value)
  | State.Frac => some (Token.Float false value)
  | State.Dot => some (Token.Float false value)
  | _ => none

/-- The scanning loop of `consume_number_like`: step the FSM; stop on `End`;
on `Error` report `IllegalLiteral` (offending character: the previous one when
at end of input, the rejecting character itself otherwise, which is consumed
first so the span includes it); otherwise push the character, consume, loop.
The `getD` defaults mirror `unwrap`s that are provably never reached from the
dispatcher (`chr` is `some` whenever the new state is not final, and `prev_chr`
is `some` after at least one iteration). -/
def number_loop (start : LOC) :
    Nat → Lexer → State → Str → Option Chr →
      Except LexicalError (State × Str × Lexer)
  | 0, l, state, value, _ => .ok (state, value, l)
  | fuel + 1, l, state, value, prev_chr =>
    let chr := l.chr0
    let new_state := state_transition state chr
    if new_state = State.End then .ok (state, value, l)
    else if new_state = State.Error then
      if chr = none then
        .error { error := LexicalErrorType.IllegalLiteral (prev_chr.getD ' '),
                 location := { start := start, «end» := l.get_pos } }
      else
        let l := l.consume.2
        .error { error := LexicalErrorType.IllegalLiteral (chr.getD ' '),
                 location := { start := start, «end» := l.get_pos } }
    else
      number_loop start fuel l.consume.2 new_state (value ++ [chr.getD ' ']) chr

/-- `Lexer::consume_number_like`.  The `none` arm of `end_token` is the
source's `unreachable!`, modelled as an error; `number_loop_ok_terminable`
below proves it is dead. -/
def Lexer.consume_number_like (l : Lexer) :
    Except LexicalError (Spanned × Lexer) :=
  let start := l.get_pos
  match number_loop start (l.stream.length + 3) l State.Start [] none with
  | .error e => .error e
  | .ok (state, value, l) =>
    let stop := l.get_pos
    match end_token state value with
    | some tok => .ok ((start, tok, stop), l)
    | none =>
      .error { error := LexicalErrorType.IllegalLiteral ' ',
               location := { start := start, «end» := stop } }

/-- The shared tail of the number-dispatching arms of `_advance_token`:
`let number_like = self.consume_number_like()?; self.emit(number_like);`. -/
def Lexer.number_path (l : Lexer) : Except LexicalError Lexer :=
  match l.consume_number_like with
  | .error e => .error e
  | .ok (sp, l) => .ok (l.emit sp)

/-- `Lexer::_advance_token`: the dispatch scanner, written as the source's
ordered match over the current character (arms with failing guards fall
through to the number arm, exactly as in the source).  The `none` arm mirrors
the source's `debug_assert!`/`unwrap`: `advance_token` only calls this with
`chr0` present. -/
def Lexer._advance_token (l : Lexer) : Except LexicalError Lexer :=
  match l.chr0 with
  | none =>
    .error { error := LexicalErrorType.UnrecognizedToken ' ',
             location := { start := l.get_pos, «end» := l.get_pos } }
  | some chr =>
    if chr = '(' then .ok (l.consume_expect_token Token.LParen 1)
    else if chr = ')' then .ok (l.consume_expect_token Token.RParen 1)
    else if chr = '[' then .ok (l.consume_expect_token Token.LBracket 1)
    else if chr = ']' then .ok (l.consume_expect_token Token.RBracket 1)
    else if chr = '{' then .ok (l.consume_expect_token Token.LBrace 1)
    else if chr = '}' then .ok (l.consume_expect_token Token.RBrace 1)
    else if chr = ':' then .ok (l.consume_expect_token Token.Colon 1)
    else if chr = '@' then .ok (l.consume_expect_token Token.At 1)
    else if chr = '%' then .ok (l.consume_expect_token Token.Percent 1)
    else if chr = ',' then .ok (l.consume_expect_token Token.Comma 1)
    else if chr = '#' then .ok (l.consume_expect_token Token.Hash 1)
    else if chr = ';' then .ok (l.consume_expect_token Token.Semicolon 1)
    else if chr = '&' then .ok (l.consume_expect_token Token.Amper 1)
    else if chr = '?' then .ok (l.consume_expect_token Token.Question 1)
    else if chr = '+' then
      if l.next_chr_is (fun c => is_ascii_digit c || c = '.') then l.number_path
      else .ok (l.consume_expect_token Token.Plus 1)
    else if chr = '-' then
      if l.next_chr_is (fun c => is_ascii_digit c || c = '.') then l.number_path
      else if l.chr1 = some '>' then .ok (l.consume_expect_token Token.MinusRArrow 2)
      else .ok (l.consume_expect_token Token.Minus 1)
    else if chr = '=' then
      if l.chr1 = some '=' then .ok (l.consume_expect_token Token.Equal2 2)
      else .ok (l.consume_expect_token Token.Equal 1)
    else if chr = '!' then
      if l.chr1 = some '=' then .ok (l.consume_expect_token Token.ExclamationEqual 2)
      else .ok (l.consume_expect_token Token.Exclamation 1)
    else if chr = '|' then
      if l.chr1 = some '>' then .ok (l.consume_expect_token Token.PipeRArrow 2)
      else .ok (l.consume_expect_token Token.Pipe 1)
    else if chr = '<' then
      if l.chr1 = some '=' then .ok (l.consume_expect_token Token.LArrowEqual 2)
      else if l.chr1 = some '-' then .ok (l.consume_expect_token Token.LArrowMinus 2)
      else .ok (l.consume_expect_token Token.LArrow 1)
    else if chr = '>' then
      if l.chr1 = some '=' then .ok (l.consume_expect_token Token.RArrowEqual 2)
      else .ok (l.consume_expect_token Token.RArrow 1)
    else if chr = '.' then
      if l.next_chr_is is_ascii_digit then l.number_path
      else if l.chr1 = some '.' then .ok (l.consume_expect_token Token.Dot2 2)
      else .ok (l.consume_expect_token Token.Dot 1)
    else if chr = '/' then
      if l.chr1 = some '/' then
        let (comment, l) := l.consume_comment_or_doc
        .ok (l.emit comment)
      else .ok (l.consume_expect_token Token.Slash 1)
    else if chr = '"' then
      match l.consume_string_literal with
      | .error e => .error e
      | .ok (string_lit, l) => .ok (l.emit string_lit)
    else if chr = '\'' then
      match l.consume_char_literal with
      | .error e => .error e
      | .ok (char_lit, l) => .ok (l.emit char_lit)
    else if is_id_start chr then
      let (id_or_keyword, l) := l.consume_ident_or_keyword
      .ok (l.emit id_or_keyword)
    else if is_ascii_digit chr then l.number_path
    else
      .error { error := LexicalErrorType.UnrecognizedToken chr,
               location := { start := l.get_pos, «end» := l.get_pos } }

/-- The whitespace loop at the head of `advance_token`: skip non-newline
whitespace; emit each newline as a `NewLine` token over its own span. -/
def ws_loop : Nat → Lexer → Lexer
  | 0, l => l
  | fuel + 1, l =>
    match l.chr0 with
    | some c =>
      if is_whitespace c then
        if c = '\n' then
          let start := l.get_pos
          let l := l.consume.2
          let stop := l.get_pos
          ws_loop fuel (l.emit (start, Token.NewLine, stop))
        else ws_loop fuel l.consume.2
      else l
    | none => l

/-- `Lexer::advance_token`: skip whitespace (emitting newlines), then either
dispatch on the current character or emit the zero-width `EOF` token. -/
def Lexer.advance_token (l : Lexer) : Except LexicalError Lexer :=
  let l := ws_loop (l.stream.length + 3) l
  match l.chr0 with
  | some _ => l._advance_token
  | none =>
    let tok_pos := l.get_pos
    .ok (l.emit (tok_pos, Token.EOF, tok_pos))

/-- `Lexer::next`: `while pending.is_empty() { advance_token()?; }` then pop
the oldest pending token.  A successful `advance_token` always enqueues at
least one token (`advance_token_pending_ne` below), so the loop body runs at
most once and the final arm is dead; it mirrors what `pending.remove(0)` would
do on an empty queue (a panic), modelled as an error. -/
def Lexer.next (l : Lexer) : Except LexicalError (Spanned × Lexer) :=
  match l.pending with
  | t :: rest => .ok (t, { l with pending := rest })
  | [] =>
    match l.advance_token with
    | .error e => .error e
    | .ok l =>
      match l.pending with
      | t :: rest => .ok (t, { l with pending := rest })
      | [] =>
        .error { error := LexicalErrorType.UnrecognizedToken ' ',
                 location := { start := l.get_pos, «end» := l.get_pos } }

/-- `char_indices`-style input starting at index `i`: the way every test and
the `main` driver feed the lexer (offset = character index; all concrete
inputs below are ASCII, where this coincides with byte offsets). -/
def mkStreamFrom (i : Nat) : Str → List (LOC × Chr)
  | [] => []
  | c :: cs => (i, c) :: mkStreamFrom (i + 1) cs

/-- The full `char_indices` stream of a source text. -/
def mkStream (src : Str) : List (LOC × Chr) := mkStreamFrom 0 src

/-- `source[a..b]`: the half-open slice of the source text. -/
def slice (src : Str) (a b : Nat) : Str := (src.drop a).take (b - a)

/-- The offset reported by `get_pos` after `p` characters have been consumed
from `mkStream src`.  On a non-empty source this is exactly `p`; on the empty
source the very first `consume` inside `Lexer::new` already runs past the end,
so every position is shifted by one. -/
def posAt (src : Str) (p : Nat) : Nat := if src.isEmpty then p + 1 else p

/-- The lexer state reached after consuming `p` characters of `mkStream src`,
with pending queue `pend`: the canonical cursor shape every reachable state
has (`consume_cursorAt`, `new_cursorAt`). -/
def cursorAt (src : Str) (p : Nat) (pend : List Spanned) : Lexer :=
  { stream := mkStreamFrom (p + 2) (src.drop (p + 2)),
    pending := pend,
    chr0 := src[p]?,
    chr1 := src[p + 1]?,
    loc0 := posAt src p,
    loc1 := posAt src (p + 1),
    location := 0 }

/-- The token of a successful `next`, discarding the updated lexer. -/
def Lexer.nextToken (l : Lexer) : Option Spanned :=
  match l.next with
  | .ok (t, _) => some t
  | .error _ => none

/-- The error of a failed `next`. -/
def Lexer.nextError (l : Lexer) : Option LexicalError :=
  match l.next with
  | .ok _ => none
  | .error e => some e

/-- The first `n` tokens of the stream (stopping early on a lexical error). -/
def takeTokens : Nat → Lexer → List Spanned
  | 0, _ => []
  | n + 1, l =>
    match l.next with
    | .ok (t, l) => t :: takeTokens n l
    | .error _ => []

/-- The literal text a token's span covers in the source, when the token's
kind carries literal text or is fixed punctuation (`none` for kinds the
round-trip claim does not constrain).  For `Comment`/`CommentDoc` this is the
content with the leading slashes stripped — the comment span starts only
after the slashes are consumed. -/
def TokenText : Token → Option Str
  | Token.Ident name => some name
  | Token.Int _ value => some value
  | Token.Float _ value => some value
  | Token.Char value => some ['\'', value, '\'']
  | Token.String value => some ('"' :: (value ++ ['"']))
  | Token.Comment content => some content
  | Token.CommentDoc content => some content
  | Token.LParen => some ['(']
  | Token.RParen => some [')']
  | Token.LBracket => some ['[']
  | Token.RBracket => some [']']
  | Token.LBrace => some ['\x7b']
  | Token.RBrace => some ['\x7d']
  | Token.Semicolon => some [';']
  | Token.Plus => some ['+']
  | Token.Minus => some ['-']
  | Token.Slash => some ['/']
  | Token.LArrow => some ['<']
  | Token.RArrow => some ['>']
  | Token.LArrowEqual => some ['<', '=']
  | Token.RArrowEqual => some ['>', '=']
  | Token.Percent => some ['%']
  | Token.Colon => some [':']
  | Token.Comma => some [',']
  | Token.Hash => some ['#']
  | Token.Equal => some ['=']
  | Token.Equal2 => some ['=', '=']
  | Token.ExclamationEqual => some ['!', '=']
  | Token.Pipe => some ['|']
  | Token.Amper => some ['&']
  | Token.PipeRArrow => some ['|', '>']
  | Token.Dot => some ['.']
  | Token.LArrowMinus => some ['<', '-']
  | Token.MinusRArrow => some ['-', '>']
  | Token.Dot2 => some ['.', '.']
  | Token.At => some ['@']
  | Token.Question => some ['?']
  | Token.Exclamation => some ['!']
  | _ => none

/-- The rendering claim C1 asserts: like `TokenText`, but for comments the
"consumed comment form" — slashes included.  `comment_span_counterexample`
shows the code does not satisfy this rendering. -/
def TokenTextClaimed : Token → Option Str
  | Token.Comment content => some ('/' :: '/' :: content)
  | Token.CommentDoc content => some ('/' :: '/' :: '/' :: content)
  | t => TokenText t

/-- A spanned token satisfies the (amended) round-trip property: whenever its
kind carries literal text, the source slice over its span is that text. -/
def SliceOK (src : Str) (t : Spanned) : Prop :=
  ∀ txt, TokenText t.2.1 = some txt → slice src t.1 t.2.2 = txt

/-! ## Cursor lemmas: every consume moves the canonical cursor one step -/

theorem ne_nil_of_getElem? {src : Str} {p : Nat} {c : Chr} (h : src[p]? = some c) :
    src.isEmpty = false := by
  cases src with
  | nil => simp at h
  | cons a t => rfl

theorem drop_cons_of_getElem? {src : Str} {p : Nat} {c : Chr} (h : src[p]? = some c) :
    src.drop p = c :: src.drop (p + 1) := by
  induction src generalizing p with
  | nil => simp at h
  | cons a t ih =>
    cases p with
    | zero => simp_all
    | succ p => simpa using ih (by simpa using h)

theorem drop_nil_of_getElem? {src : Str} {p : Nat} (h : src[p]? = none) :
    src.drop p = [] := by
  induction src generalizing p with
  | nil => simp
  | cons a t ih =>
    cases p with
    | zero => simp at h
    | succ p => simpa using ih (by simpa using h)

theorem getElem?_none_succ {src : Str} {p : Nat} (h : src[p]? = none) :
    src[p + 1]? = none := by
  rw [List.getElem?_eq_none_iff] at h ⊢
  omega

theorem lt_length_of_getElem? {src : Str} {p : Nat} {c : Chr} (h : src[p]? = some c) :
    p < src.length := by
  by_contra hlt
  rw [List.getElem?_eq_none (by omega)] at h
  exact Option.noConfusion h

theorem posAt_succ (src : Str) (p : Nat) : posAt src (p + 1) = posAt src p + 1 := by
  unfold posAt
  split <;> rfl

theorem consume_cursorAt (src : Str) (p : Nat) (pend : List Spanned) :
    (cursorAt src p pend).consume = (src[p]?, cursorAt src (p + 1) pend) := by
  rcases hg : src[p + 2]? with _ | c
  · have hd2 : src.drop (p + 2) = [] := drop_nil_of_getElem? hg
    have hd3 : src.drop (p + 3) = [] := drop_nil_of_getElem? (getElem?_none_succ hg)
    have hlen : src.length ≤ p + 2 := List.getElem?_eq_none_iff.mp hg
    simp [cursorAt, Lexer.consume, hd2, hd3, mkStreamFrom, hg, posAt_succ]
  · have hd2 : src.drop (p + 2) = c :: src.drop (p + 3) := drop_cons_of_getElem? hg
    have hne : src.isEmpty = false := ne_nil_of_getElem? hg
    simp [cursorAt, Lexer.consume, hd2, mkStreamFrom, posAt_succ, posAt, hne, hg]

theorem consume_cursorAt_snd (src : Str) (p : Nat) (pend : List Spanned) :
    (cursorAt src p pend).consume.2 = cursorAt src (p + 1) pend := by
  rw [consume_cursorAt]

theorem consume_cursorAt_fst (src : Str) (p : Nat) (pend : List Spanned) :
    (cursorAt src p pend).consume.1 = src[p]? := by
  rw [consume_cursorAt]

theorem chr0_cursorAt (src : Str) (p : Nat) (pend : List Spanned) :
    (cursorAt src p pend).chr0 = src[p]? := rfl

theorem chr1_cursorAt (src : Str) (p : Nat) (pend : List Spanned) :
    (cursorAt src p pend).chr1 = src[p + 1]? := rfl

theorem get_pos_cursorAt (src : Str) (p : Nat) (pend : List Spanned) :
    (cursorAt src p pend).get_pos = posAt src p := rfl

theorem emit_cursorAt (src : Str) (p : Nat) (pend : List Spanned) (t : Spanned) :
    (cursorAt src p pend).emit t = cursorAt src p (pend ++ [t]) := rfl

theorem stream_length_cursorAt (src : Str) (p : Nat) (pend : List Spanned) :
    (cursorAt src p pend).stream.length = src.length - (p + 2) := by
  have h : ∀ (i : Nat) (l : Str), (mkStreamFrom i l).length = l.length := by
    intro i l
    induction l generalizing i with
    | nil => rfl
    | cons c t ih => simp [mkStreamFrom, ih]
  simp [cursorAt, h]

theorem new_cursorAt (src : Str) : Lexer.new (mkStream src) = cursorAt src 0 [] := by
  rcases src with _ | ⟨a, _ | ⟨b, t⟩⟩ <;>
    simp [Lexer.new, mkStream, mkStreamFrom, Lexer.consume, cursorAt, posAt]

/-! ## Closed forms of the scanning loops over the canonical cursor -/

theorem fuel_ok (src : Str) (p : Nat) (pend : List Spanned) :
    src.length - p < (cursorAt src p pend).stream.length + 3 := by
  rw [stream_length_cursorAt]
  omega

/-- Characters a string literal's content loop accepts. -/
def not_quote (c : Chr) : Bool := !(c == '"')

/-- Characters a comment's content loop accepts. -/
def not_newline (c : Chr) : Bool := !(c == '\n')

theorem ident_loop_cursorAt (src : Str) : ∀ fuel p pend name,
    src.length - p < fuel →
    ident_loop fuel (cursorAt src p pend) name =
      (cursorAt src (p + ((src.drop p).takeWhile is_id_continue).length) pend,
       name ++ (src.drop p).takeWhile is_id_continue) := by
  intro fuel
  induction fuel with
  | zero => intro p pend name h; omega
  | succ fuel ih =>
    intro p pend name h
    rcases hc : src[p]? with _ | c
    · have hdrop : src.drop p = [] := drop_nil_of_getElem? hc
      simp [ident_loop, chr0_cursorAt, hc, hdrop]
    · have hlen : p < src.length := lt_length_of_getElem? hc
      have hdrop : src.drop p = c :: src.drop (p + 1) := drop_cons_of_getElem? hc
      by_cases hid : is_id_continue c
      · rw [show ident_loop (fuel + 1) (cursorAt src p pend) name =
            ident_loop fuel (cursorAt src p pend).consume.2 (name ++ [c]) by
          simp [ident_loop, chr0_cursorAt, hc, hid]]
        rw [consume_cursorAt_snd, ih (p + 1) pend (name ++ [c]) (by omega)]
        have harith : p + 1 + ((src.drop (p + 1)).takeWhile is_id_continue).length
            = p + (((src.drop (p + 1)).takeWhile is_id_continue).length + 1) := by omega
        rw [harith, hdrop]
        simp [List.takeWhile_cons, hid]
      · simp [ident_loop, chr0_cursorAt, hc, hid, hdrop, List.takeWhile_cons]

theorem string_loop_cursorAt (src : Str) : ∀ fuel p pend value,
    src.length - p < fuel →
    string_loop fuel (cursorAt src p pend) value =
      (cursorAt src (p + ((src.drop p).takeWhile not_quote).length) pend,
       value ++ (src.drop p).takeWhile not_quote) := by
  intro fuel
  induction fuel with
  | zero => intro p pend value h; omega
  | succ fuel ih =>
    intro p pend value h
    rcases hc : src[p]? with _ | c
    · have hdrop : src.drop p = [] := drop_nil_of_getElem? hc
      simp [string_loop, chr0_cursorAt, hc, hdrop]
    · have hlen : p < src.length := lt_length_of_getElem? hc
      have hdrop : src.drop p = c :: src.drop (p + 1) := drop_cons_of_getElem? hc
      by_cases hq : c = '"'
      · subst hq
        simp [string_loop, chr0_cursorAt, hc, hdrop, List.takeWhile_cons, not_quote]
      · rw [show string_loop (fuel + 1) (cursorAt src p pend) value =
            string_loop fuel (cursorAt src p pend).consume.2 (value ++ [c]) by
          simp [string_loop, chr0_cursorAt, hc, hq]]
        rw [consume_cursorAt_snd, ih (p + 1) pend (value ++ [c]) (by omega)]
        have harith : p + 1 + ((src.drop (p + 1)).takeWhile not_quote).length
            = p + (((src.drop (p + 1)).takeWhile not_quote).length + 1) := by omega
        rw [harith, hdrop]
        simp [List.takeWhile_cons, not_quote, hq]

theorem comment_loop_cursorAt (src : Str) : ∀ fuel p pend content,
    src.length - p < fuel →
    comment_loop fuel (cursorAt src p pend) content =
      (cursorAt src (p + ((src.drop p).takeWhile not_newline).length) pend,
       content ++ (src.drop p).takeWhile not_newline) := by
  intro fuel
  induction fuel with
  | zero => intro p pend content h; omega
  | succ fuel ih =>
    intro p pend content h
    rcases hc : src[p]? with _ | c
    · have hdrop : src.drop p = [] := drop_nil_of_getElem? hc
      simp [comment_loop, chr0_cursorAt, hc, hdrop]
    · have hlen : p < src.length := lt_length_of_getElem? hc
      have hdrop : src.drop p = c :: src.drop (p + 1) := drop_cons_of_getElem? hc
      by_cases hq : c = '\n'
      · subst hq
        simp [comment_loop, chr0_cursorAt, hc, hdrop, List.takeWhile_cons, not_newline]
      · rw [show comment_loop (fuel + 1) (cursorAt src p pend) content =
            comment_loop fuel (cursorAt src p pend).consume.2 (content ++ [c]) by
          simp [comment_loop, chr0_cursorAt, hc, hq]]
        rw [consume_cursorAt_snd, ih (p + 1) pend (content ++ [c]) (by omega)]
        have harith : p + 1 + ((src.drop (p + 1)).takeWhile not_newline).length
            = p + (((src.drop (p + 1)).takeWhile not_newline).length + 1) := by omega
        rw [harith, hdrop]
        simp [List.takeWhile_cons, not_newline, hq]

/-! ## Scanner lemmas on the canonical cursor -/

theorem posAt_eq {src : Str} (h : src.isEmpty = false) (q : Nat) : posAt src q = q := by
  simp [posAt, h]

theorem takeWhile_stop {P : Chr → Bool} {l : Str} {d : Chr}
    (h : l[(l.takeWhile P).length]? = some d) : P d = false := by
  induction l with
  | nil => simp at h
  | cons a t ih =>
    by_cases hp : P a
    · rw [List.takeWhile_cons, if_pos hp] at h
      simpa using ih (by simpa using h)
    · rw [List.takeWhile_cons, if_neg hp] at h
      simp at h
      rw [← h]
      simpa using hp

theorem keyword_text_none {name : Str} {tok : Token}
    (h : Token.try_from_keywords name = some tok) : TokenText tok = none := by
  unfold Token.try_from_keywords at h
  by_cases h0 : name = ['a', 's']
  · rw [if_pos h0] at h
    injection h with h
    subst h
    rfl
  rw [if_neg h0] at h
  by_cases h1 : name = ['c', 'o', 'n', 's', 't']
  · rw [if_pos h1] at h
    injection h with h
    subst h
    rfl
  rw [if_neg h1] at h
  by_cases h2 : name = ['f', 'n']
  · rw [if_pos h2] at h
    injection h with h
    subst h
    rfl
  rw [if_neg h2] at h
  by_cases h3 : name = ['i', 'f']
  · rw [if_pos h3] at h
    injection h with h
    subst h
    rfl
  rw [if_neg h3] at h
  by_cases h4 : name = ['e', 'l', 's', 'e']
  · rw [if_pos h4] at h
    injection h with h
    subst h
    rfl
  rw [if_neg h4] at h
  by_cases h5 : name = ['a', 'n', 'd']
  · rw [if_pos h5] at h
    injection h with h
    subst h
    rfl
  rw [if_neg h5] at h
  by_cases h6 : name = ['o', 'r']
  · rw [if_pos h6] at h
    injection h with h
    subst h
    rfl
  rw [if_neg h6] at h
  by_cases h7 : name = ['i', 'm', 'p', 'o', 'r', 't']
  · rw [if_pos h7] at h
    injection h with h
    subst h
    rfl
  rw [if_neg h7] at h
  by_cases h8 : name = ['l', 'e', 't']
  · rw [if_pos h8] at h
    injection h with h
    subst h
    rfl
  rw [if_neg h8] at h
  by_cases h9 : name = ['t', 'y', 'p', 'e']
  · rw [if_pos h9] at h
    injection h with h
    subst h
    rfl
  rw [if_neg h9] at h
  by_cases h10 : name = ['o', 'p', 'a', 'q', 'u', 'e']
  · rw [if_pos h10] at h
    injection h with h
    subst h
    rfl
  rw [if_neg h10] at h
  by_cases h11 : name = ['p', 'u', 'b']
  · rw [if_pos h11] at h
    injection h with h
    subst h
    rfl
  rw [if_neg h11] at h
  by_cases h12 : name = ['s', 't', 'r', 'u', 'c', 't']
  · rw [if_pos h12] at h
    injection h with h
    subst h
    rfl
  rw [if_neg h12] at h
  by_cases h13 : name = ['e', 'n', 'u', 'm']
  · rw [if_pos h13] at h
    injection h with h
    subst h
    rfl
  rw [if_neg h13] at h
  by_cases h14 : name = ['b', 'r', 'e', 'a', 'k']
  · rw [if_pos h14] at h
    injection h with h
    subst h
    rfl
  rw [if_neg h14] at h
  by_cases h15 : name = ['c', 'o', 'n', 't', 'i', 'n', 'u', 'e']
  · rw [if_pos h15] at h
    injection h with h
    subst h
    rfl
  rw [if_neg h15] at h
  by_cases h16 : name = ['a', 's', 'y', 'n', 'c']
  · rw [if_pos h16] at h
    injection h with h
    subst h
    rfl
  rw [if_neg h16] at h
  by_cases h17 : name = ['a', 'w', 'a', 'i', 't']
  · rw [if_pos h17] at h
    injection h with h
    subst h
    rfl
  rw [if_neg h17] at h
  by_cases h18 : name = ['r', 'e', 't', 'u', 'r', 'n']
  · rw [if_pos h18] at h
    injection h with h
    subst h
    rfl
  rw [if_neg h18] at h
  by_cases h19 : name = ['t', 'e', 's', 't']
  · rw [if_pos h19] at h
    injection h with h
    subst h
    rfl
  rw [if_neg h19] at h
  exact Option.noConfusion h

theorem comment_scanner_cursorAt (src : Str) (p : Nat) (pend : List Spanned)
    (h0 : src[p]? = some '/') (h2 : src[p + 2]? ≠ some '/') :
    (cursorAt src p pend).consume_comment_or_doc =
      ((p + 2, Token.Comment ((src.drop (p + 2)).takeWhile not_newline),
        p + 2 + ((src.drop (p + 2)).takeWhile not_newline).length),
       cursorAt src (p + 2 + ((src.drop (p + 2)).takeWhile not_newline).length) pend) := by
  have hne : src.isEmpty = false := ne_nil_of_getElem? h0
  rcases hg : src[p + 2]? with _ | c
  · have hcn : ¬ ((none : Option Chr) = some '/') := by simp
    simp only [Lexer.consume_comment_or_doc, consume_cursorAt_snd, chr1_cursorAt, hg,
      if_neg hcn]
    rw [comment_loop_cursorAt src _ (p + 1 + 1) pend [] (fuel_ok ..)]
    simp [get_pos_cursorAt, posAt_eq hne]
  · have hcn : ¬ (some c = some '/') := by
      intro hcc
      exact h2 (by rw [hg, hcc])
    simp only [Lexer.consume_comment_or_doc, consume_cursorAt_snd, chr1_cursorAt, hg,
      if_neg hcn]
    rw [comment_loop_cursorAt src _ (p + 1 + 1) pend [] (fuel_ok ..)]
    simp [get_pos_cursorAt, posAt_eq hne]

theorem comment_scanner_doc_cursorAt (src : Str) (p : Nat) (pend : List Spanned)
    (h0 : src[p]? = some '/') (h2 : src[p + 2]? = some '/') :
    (cursorAt src p pend).consume_comment_or_doc =
      ((p + 3, Token.CommentDoc ((src.drop (p + 3)).takeWhile not_newline),
        p + 3 + ((src.drop (p + 3)).takeWhile not_newline).length),
       cursorAt src (p + 3 + ((src.drop (p + 3)).takeWhile not_newline).length) pend) := by
  have hne : src.isEmpty = false := ne_nil_of_getElem? h0
  simp only [Lexer.consume_comment_or_doc, consume_cursorAt_snd, chr1_cursorAt, h2,
    if_pos rfl, if_true]
  rw [comment_loop_cursorAt src _ (p + 1 + 1 + 1) pend [] (fuel_ok ..)]
  simp [get_pos_cursorAt, posAt_eq hne]

theorem ident_scanner_cursorAt (src : Str) (p : Nat) (pend : List Spanned) (c : Chr)
    (h0 : src[p]? = some c) :
    (cursorAt src p pend).consume_ident_or_keyword =
      ((p,
        (Token.try_from_keywords (c :: (src.drop (p + 1)).takeWhile is_id_continue)).getD
          (Token.Ident (c :: (src.drop (p + 1)).takeWhile is_id_continue)),
        p + 1 + ((src.drop (p + 1)).takeWhile is_id_continue).length),
       cursorAt src (p + 1 + ((src.drop (p + 1)).takeWhile is_id_continue).length) pend) := by
  have hne : src.isEmpty = false := ne_nil_of_getElem? h0
  simp only [Lexer.consume_ident_or_keyword, chr0_cursorAt, h0, consume_cursorAt_snd]
  rw [ident_loop_cursorAt src _ (p + 1) pend [c] (fuel_ok ..)]
  rcases hk : Token.try_from_keywords (c :: (src.drop (p + 1)).takeWhile is_id_continue)
    with _ | tok <;>
    simp [get_pos_cursorAt, posAt_eq hne, hk]

theorem slice_refl (src : Str) (p : Nat) : slice src p p = [] := by
  simp [slice]

theorem slice_cons {src : Str} {p p' : Nat} {c : Chr}
    (hc : src[p]? = some c) (hp : p + 1 ≤ p') :
    slice src p p' = c :: slice src (p + 1) p' := by
  have hdrop : src.drop p = c :: src.drop (p + 1) := drop_cons_of_getElem? hc
  have harith : p' - p = (p' - (p + 1)) + 1 := by omega
  rw [slice, hdrop, harith, List.take_succ_cons, slice]

theorem getElem?_drop_add (src : Str) (n m : Nat) :
    (src.drop n)[m]? = src[n + m]? := List.getElem?_drop ..

theorem string_scanner_ok_cursorAt (src : Str) (p : Nat) (pend : List Spanned)
    (h0 : src[p]? = some '"')
    (hq : src[p + 1 + ((src.drop (p + 1)).takeWhile not_quote).length]? = some '"') :
    (cursorAt src p pend).consume_string_literal =
      .ok ((p, Token.String ((src.drop (p + 1)).takeWhile not_quote),
            p + 1 + ((src.drop (p + 1)).takeWhile not_quote).length + 1),
           cursorAt src (p + 1 + ((src.drop (p + 1)).takeWhile not_quote).length + 1) pend) := by
  have hne : src.isEmpty = false := ne_nil_of_getElem? h0
  simp only [Lexer.consume_string_literal, consume_cursorAt_snd]
  rw [string_loop_cursorAt src _ (p + 1) pend [] (fuel_ok ..)]
  simp only [chr0_cursorAt, hq, if_pos rfl, if_true, consume_cursorAt_snd]
  simp [get_pos_cursorAt, posAt_eq hne]

theorem string_scanner_err_cursorAt (src : Str) (p : Nat) (pend : List Spanned)
    (h0 : src[p]? = some '"')
    (hq : src[p + 1 + ((src.drop (p + 1)).takeWhile not_quote).length]? = none) :
    (cursorAt src p pend).consume_string_literal =
      .error ⟨LexicalErrorType.UnexpectedStringEnd,
        ⟨p, p + 1 + ((src.drop (p + 1)).takeWhile not_quote).length⟩⟩ := by
  have hne : src.isEmpty = false := ne_nil_of_getElem? h0
  have hnq : ¬ ((none : Option Chr) = some '"') := by simp
  simp only [Lexer.consume_string_literal, consume_cursorAt_snd]
  rw [string_loop_cursorAt src _ (p + 1) pend [] (fuel_ok ..)]
  simp only [chr0_cursorAt, hq, if_neg hnq]
  simp [get_pos_cursorAt, posAt_eq hne]

/-- After the string content loop, the current character is either the closing
quote or end of input. -/
theorem string_stop (src : Str) (p : Nat) :
    src[p + 1 + ((src.drop (p + 1)).takeWhile not_quote).length]? = some '"' ∨
    src[p + 1 + ((src.drop (p + 1)).takeWhile not_quote).length]? = none := by
  rcases hd : src[p + 1 + ((src.drop (p + 1)).takeWhile not_quote).length]? with _ | d
  · right
    rfl
  · left
    have hd' : (src.drop (p + 1))[((src.drop (p + 1)).takeWhile not_quote).length]? = some d := by
      rw [getElem?_drop_add]
      exact hd
    have := takeWhile_stop hd'
    have hdq : d = '"' := by
      simpa [not_quote] using this
    rw [hdq]

/-- After the comment content loop, the current character is either a newline
or end of input — the newline is never consumed by the comment scanner. -/
theorem comment_stop (src : Str) (q : Nat) :
    src[q + ((src.drop q).takeWhile not_newline).length]? = some '\n' ∨
    src[q + ((src.drop q).takeWhile not_newline).length]? = none := by
  rcases hd : src[q + ((src.drop q).takeWhile not_newline).length]? with _ | d
  · right
    rfl
  · left
    have hd' : (src.drop q)[((src.drop q).takeWhile not_newline).length]? = some d := by
      rw [getElem?_drop_add]
      exact hd
    have := takeWhile_stop hd'
    have hdq : d = '\n' := by
      simpa [not_newline] using this
    rw [hdq]

theorem char_scanner_empty_cursorAt (src : Str) (p : Nat) (pend : List Spanned)
    (h0 : src[p]? = some '\'') (h1 : src[p + 1]? = some '\'') :
    (cursorAt src p pend).consume_char_literal =
      .error { error := LexicalErrorType.EmptyCharLiteral,
               location := { start := p, «end» := p + 2 } } := by
  have hne : src.isEmpty = false := ne_nil_of_getElem? h0
  simp only [Lexer.consume_char_literal, consume_cursorAt_snd, chr0_cursorAt, h1,
    if_pos rfl, if_true]
  simp [get_pos_cursorAt, posAt_eq hne]

theorem char_scanner_eof_cursorAt (src : Str) (p : Nat) (pend : List Spanned)
    (h0 : src[p]? = some '\'') (h1 : src[p + 1]? = none) :
    (cursorAt src p pend).consume_char_literal =
      .error { error := LexicalErrorType.UnexpectedCharEnd,
               location := { start := p, «end» := p + 1 } } := by
  have hne : src.isEmpty = false := ne_nil_of_getElem? h0
  simp only [Lexer.consume_char_literal, consume_cursorAt_snd, chr0_cursorAt, h1]
  simp [get_pos_cursorAt, posAt_eq hne]

theorem char_scanner_ok_cursorAt (src : Str) (p : Nat) (pend : List Spanned) (c : Chr)
    (h0 : src[p]? = some '\'') (h1 : src[p + 1]? = some c) (hcq : c ≠ '\'')
    (h2 : src[p + 2]? = some '\'') :
    (cursorAt src p pend).consume_char_literal =
      .ok ((p, Token.Char c, p + 3), cursorAt src (p + 3) pend) := by
  have hne : src.isEmpty = false := ne_nil_of_getElem? h0
  simp only [Lexer.consume_char_literal, consume_cursorAt_snd, chr0_cursorAt, h1,
    if_neg hcq, h2, if_pos rfl, if_true]
  simp [get_pos_cursorAt, posAt_eq hne]

theorem char_scanner_unterminated_cursorAt (src : Str) (p : Nat) (pend : List Spanned)
    (c : Chr) (h0 : src[p]? = some '\'') (h1 : src[p + 1]? = some c) (hcq : c ≠ '\'')
    (h2 : src[p + 2]? ≠ some '\'') :
    (cursorAt src p pend).consume_char_literal =
      .error { error := LexicalErrorType.UnexpectedCharEnd,
               location := { start := p, «end» := p + 2 } } := by
  have hne : src.isEmpty = false := ne_nil_of_getElem? h0
  have h2' : ¬ (src[p + 1 + 1]? = some '\'') := h2
  simp only [Lexer.consume_char_literal, consume_cursorAt_snd, chr0_cursorAt, h1,
    if_neg hcq, if_neg h2']
  simp [get_pos_cursorAt, posAt_eq hne]

/-! ## FSM lemmas -/

theorem transition_none_final (st : State) :
    state_transition st none = State.End ∨ state_transition st none = State.Error := by
  by_cases h : st.terminable <;> simp [state_transition, h]

theorem transition_some_ne_end {c : Chr} (hws : is_whitespace c = false) (st : State) :
    state_transition st (some c) ≠ State.End := by
  cases st <;> simp only [state_transition, hws, Bool.false_eq_true, if_false] <;>
    (try split_ifs) <;> simp

theorem transition_end_terminable {st : State} {chr : Option Chr}
    (h : state_transition st chr = State.End) : st.terminable = true := by
  rcases chr with _ | c
  · by_cases ht : st.terminable
    · exact ht
    · simp [state_transition, ht] at h
  · by_cases hws : is_whitespace c
    · by_cases ht : st.terminable
      · exact ht
      · simp [state_transition, hws, ht] at h
    · exact absurd h (transition_some_ne_end (by simpa using hws) st)

theorem terminable_end_token {st : State} (h : st.terminable = true) (v : Str) :
    ∃ tok, end_token st v = some tok ∧ TokenText tok = some v := by
  cases st <;> first
    | exact ⟨_, rfl, rfl⟩
    | exact absurd h (by decide)

/-- The loop of `consume_number_like` on a canonical cursor: it either reports
an `IllegalLiteral` error whose span starts at `start`, or stops in a state
from which the current character is a valid terminator, having accumulated
exactly the consumed slice of the source. -/
theorem number_loop_spec (src : Str) (start : LOC) : ∀ fuel p pend st v prev,
    src.length - p < fuel → st ≠ State.End → st ≠ State.Error →
    (∃ e : LexicalError,
        number_loop start fuel (cursorAt src p pend) st v prev = .error e ∧
        e.location.start = start ∧
        ∃ c, e.error = LexicalErrorType.IllegalLiteral c) ∨
    (∃ p' st', p ≤ p' ∧
        number_loop start fuel (cursorAt src p pend) st v prev =
          .ok (st', v ++ slice src p p', cursorAt src p' pend) ∧
        state_transition st' src[p']? = State.End) := by
  intro fuel
  induction fuel with
  | zero => intro p pend st v prev h _ _; omega
  | succ fuel ih =>
    intro p pend st v prev h hE hR
    by_cases hEnd : state_transition st src[p]? = State.End
    · right
      refine ⟨p, st, le_refl p, ?_, hEnd⟩
      simp [number_loop, chr0_cursorAt, hEnd, slice_refl]
    · by_cases hErr : state_transition st src[p]? = State.Error
      · left
        rcases hc : src[p]? with _ | c
        · rw [hc] at hErr hEnd
          refine ⟨⟨LexicalErrorType.IllegalLiteral (prev.getD ' '),
            ⟨start, (cursorAt src p pend).get_pos⟩⟩, ?_, rfl, _, rfl⟩
          simp [number_loop, chr0_cursorAt, hc, hErr, hEnd]
        · rw [hc] at hErr hEnd
          refine ⟨⟨LexicalErrorType.IllegalLiteral c,
            ⟨start, (cursorAt src (p + 1) pend).get_pos⟩⟩, ?_, rfl, _, rfl⟩
          simp [number_loop, chr0_cursorAt, hc, hErr, hEnd, consume_cursorAt_snd]
      · rcases hc : src[p]? with _ | c
        · rw [hc] at hErr hEnd
          rcases transition_none_final st with hf | hf
          · exact absurd hf hEnd
          · exact absurd hf hErr
        · have hlen : p < src.length := lt_length_of_getElem? hc
          rw [hc] at hErr hEnd
          have hstep : number_loop start (fuel + 1) (cursorAt src p pend) st v prev =
              number_loop start fuel (cursorAt src (p + 1) pend)
                (state_transition st (some c)) (v ++ [c]) (some c) := by
            simp [number_loop, chr0_cursorAt, hc, hErr, hEnd, consume_cursorAt_snd]
          rcases ih (p + 1) pend (state_transition st (some c)) (v ++ [c]) (some c)
              (by omega) hEnd hErr with
            ⟨e, heq, hstart, c', herr⟩ | ⟨p', st', hple, heq, hterm⟩
          · left
            exact ⟨e, by rw [hstep]; exact heq, hstart, c', herr⟩
          · right
            refine ⟨p', st', by omega, ?_, hterm⟩
            rw [hstep, heq, slice_cons hc hple]
            simp

/-- `consume_number_like` on a canonical cursor: either a lexical error, or a
single spanned token whose span starts at the scan position, ends at the new
cursor position, and whose literal text is exactly the consumed source slice. -/
theorem number_scanner_spec (src : Str) (p : Nat) (pend : List Spanned) (c0 : Chr)
    (hc : src[p]? = some c0) :
    (∃ e, (cursorAt src p pend).consume_number_like = .error e) ∨
    (∃ p' tok, p ≤ p' ∧
        (cursorAt src p pend).consume_number_like =
          .ok ((p, tok, p'), cursorAt src p' pend) ∧
        TokenText tok = some (slice src p p')) := by
  have hne : src.isEmpty = false := ne_nil_of_getElem? hc
  have hfuel : src.length - p < (cursorAt src p pend).stream.length + 3 := fuel_ok ..
  rcases number_loop_spec src (cursorAt src p pend).get_pos
      ((cursorAt src p pend).stream.length + 3) p pend State.Start [] none hfuel
      (by simp) (by simp) with
    ⟨e, heq, _, _, _⟩ | ⟨p', st', hple, heq, hterm⟩
  · left
    refine ⟨e, ?_⟩
    simp only [Lexer.consume_number_like, heq]
  · right
    have hterm' : st'.terminable = true := transition_end_terminable hterm
    rcases terminable_end_token hterm' (slice src p p') with ⟨tok, htok, htxt⟩
    refine ⟨p', tok, hple, ?_, htxt⟩
    simp only [Lexer.consume_number_like, heq, List.nil_append, htok]
    simp [get_pos_cursorAt, posAt_eq hne]

/-! ## Fixed-width emission and slice algebra -/

theorem consumeN_cursorAt (src : Str) : ∀ (k p : Nat) (pend : List Spanned),
    (cursorAt src p pend).consumeN k = cursorAt src (p + k) pend := by
  intro k
  induction k with
  | zero => intro p pend; rfl
  | succ k ih =>
    intro p pend
    rw [show (cursorAt src p pend).consumeN (k + 1) =
        (cursorAt src p pend).consume.2.consumeN k from rfl]
    rw [consume_cursorAt_snd, ih]
    congr 1
    omega

theorem consume_expect_token_cursorAt (src : Str) (p : Nat) (pend : List Spanned)
    (tok : Token) (k : Nat) :
    (cursorAt src p pend).consume_expect_token tok k =
      cursorAt src (p + k) (pend ++ [(posAt src p, tok, posAt src (p + k))]) := by
  simp only [Lexer.consume_expect_token, consumeN_cursorAt, get_pos_cursorAt, emit_cursorAt]

theorem slice_append (src : Str) {a b c : Nat} (hab : a ≤ b) (hbc : b ≤ c) :
    slice src a c = slice src a b ++ slice src b c := by
  have h1 : c - a = (b - a) + (c - b) := by omega
  have h2 : a + (b - a) = b := by omega
  rw [slice, h1, List.take_add, slice, slice, List.drop_drop, h2]

theorem takeWhile_slice (src : Str) (P : Chr → Bool) (q : Nat) :
    slice src q (q + ((src.drop q).takeWhile P).length) = (src.drop q).takeWhile P := by
  have hpre : (src.drop q).takeWhile P <+: src.drop q := List.takeWhile_prefix P
  have htake := List.prefix_iff_eq_take.mp hpre
  rw [slice, show q + ((src.drop q).takeWhile P).length - q =
    ((src.drop q).takeWhile P).length from by omega]
  exact htake.symm

/-! ## Contract of a single dispatch step -/

/-- Outcome contract of one dispatch step at canonical position `p`: either a
lexical error, or exactly one token appended to the pending queue, whose span
lies between `p` and the new cursor position `p'`, ends at `p'`, and whose
covered source slice is its literal text. -/
def AdvanceOk (src : Str) (p : Nat) (pend : List Spanned)
    (r : Except LexicalError Lexer) : Prop :=
  (∃ e, r = .error e) ∨
  (∃ p' t, r = .ok (cursorAt src p' (pend ++ [t])) ∧
    p ≤ t.1 ∧ t.1 ≤ t.2.2 ∧ t.2.2 = p' ∧ SliceOK src t)

theorem adv_expect1 (src : Str) (p : Nat) (pend : List Spanned) (c : Chr) (tok : Token)
    (hc : src[p]? = some c) (htok : TokenText tok = some [c]) :
    AdvanceOk src p pend (.ok ((cursorAt src p pend).consume_expect_token tok 1)) := by
  have hne : src.isEmpty = false := ne_nil_of_getElem? hc
  right
  rw [consume_expect_token_cursorAt, posAt_eq hne, posAt_eq hne]
  refine ⟨p + 1, (p, tok, p + 1), rfl, le_refl _, show p ≤ p + 1 by omega, rfl, ?_⟩
  intro txt htxt
  rw [htok] at htxt
  cases htxt
  show slice src p (p + 1) = [c]
  rw [slice_cons hc (by omega), slice_refl]

theorem adv_expect2 (src : Str) (p : Nat) (pend : List Spanned) (c d : Chr) (tok : Token)
    (hc : src[p]? = some c) (hd : src[p + 1]? = some d)
    (htok : TokenText tok = some [c, d]) :
    AdvanceOk src p pend (.ok ((cursorAt src p pend).consume_expect_token tok 2)) := by
  have hne : src.isEmpty = false := ne_nil_of_getElem? hc
  right
  rw [consume_expect_token_cursorAt, posAt_eq hne, posAt_eq hne]
  refine ⟨p + 2, (p, tok, p + 2), rfl, le_refl _, show p ≤ p + 2 by omega, rfl, ?_⟩
  intro txt htxt
  rw [htok] at htxt
  cases htxt
  show slice src p (p + 2) = [c, d]
  rw [slice_cons hc (by omega), slice_cons hd (by omega), slice_refl]

theorem adv_number (src : Str) (p : Nat) (pend : List Spanned) (c : Chr)
    (hc : src[p]? = some c) :
    AdvanceOk src p pend (cursorAt src p pend).number_path := by
  rcases number_scanner_spec src p pend c hc with ⟨e, heq⟩ | ⟨p', tok, hple, heq, htxt⟩
  · left
    exact ⟨e, by simp [Lexer.number_path, heq]⟩
  · right
    refine ⟨p', (p, tok, p'), ?_, le_refl _, hple, rfl, ?_⟩
    · simp [Lexer.number_path, heq, emit_cursorAt]
    · intro txt h
      rw [htxt] at h
      cases h
      rfl

theorem adv_comment (src : Str) (p : Nat) (pend : List Spanned)
    (hc : src[p]? = some '/') :
    AdvanceOk src p pend
      (.ok ((cursorAt src p pend).consume_comment_or_doc.2.emit
        (cursorAt src p pend).consume_comment_or_doc.1)) := by
  right
  by_cases h2 : src[p + 2]? = some '/'
  · rw [comment_scanner_doc_cursorAt src p pend hc h2]
    refine ⟨p + 3 + ((src.drop (p + 3)).takeWhile not_newline).length,
      (p + 3, Token.CommentDoc ((src.drop (p + 3)).takeWhile not_newline),
        p + 3 + ((src.drop (p + 3)).takeWhile not_newline).length),
      rfl, show p ≤ p + 3 by omega,
      show p + 3 ≤ p + 3 + ((src.drop (p + 3)).takeWhile not_newline).length by omega,
      rfl, ?_⟩
    intro txt htxt
    cases htxt
    show slice src (p + 3) (p + 3 + ((src.drop (p + 3)).takeWhile not_newline).length) =
      (src.drop (p + 3)).takeWhile not_newline
    exact takeWhile_slice src not_newline (p + 3)
  · rw [comment_scanner_cursorAt src p pend hc h2]
    refine ⟨p + 2 + ((src.drop (p + 2)).takeWhile not_newline).length,
      (p + 2, Token.Comment ((src.drop (p + 2)).takeWhile not_newline),
        p + 2 + ((src.drop (p + 2)).takeWhile not_newline).length),
      rfl, show p ≤ p + 2 by omega,
      show p + 2 ≤ p + 2 + ((src.drop (p + 2)).takeWhile not_newline).length by omega,
      rfl, ?_⟩
    intro txt htxt
    cases htxt
    show slice src (p + 2) (p + 2 + ((src.drop (p + 2)).takeWhile not_newline).length) =
      (src.drop (p + 2)).takeWhile not_newline
    exact takeWhile_slice src not_newline (p + 2)

theorem adv_string (src : Str) (p : Nat) (pend : List Spanned)
    (hc : src[p]? = some '"') :
    AdvanceOk src p pend
      (match (cursorAt src p pend).consume_string_literal with
       | .error e => .error e
       | .ok (string_lit, l) => .ok (l.emit string_lit)) := by
  rcases string_stop src p with hq | hq
  · right
    rw [string_scanner_ok_cursorAt src p pend hc hq]
    refine ⟨p + 1 + ((src.drop (p + 1)).takeWhile not_quote).length + 1,
      (p, Token.String ((src.drop (p + 1)).takeWhile not_quote),
        p + 1 + ((src.drop (p + 1)).takeWhile not_quote).length + 1),
      rfl, le_refl _,
      show p ≤ p + 1 + ((src.drop (p + 1)).takeWhile not_quote).length + 1 by omega,
      rfl, ?_⟩
    intro txt htxt
    cases htxt
    show slice src p (p + 1 + ((src.drop (p + 1)).takeWhile not_quote).length + 1) =
      '"' :: ((src.drop (p + 1)).takeWhile not_quote ++ ['"'])
    rw [slice_cons hc (by omega),
      @slice_append src (p + 1) (p + 1 + ((src.drop (p + 1)).takeWhile not_quote).length)
        (p + 1 + ((src.drop (p + 1)).takeWhile not_quote).length + 1) (by omega) (by omega),
      takeWhile_slice src not_quote (p + 1), slice_cons hq (by omega), slice_refl]
  · left
    rw [string_scanner_err_cursorAt src p pend hc hq]
    exact ⟨_, rfl⟩

theorem adv_char (src : Str) (p : Nat) (pend : List Spanned)
    (hc : src[p]? = some '\'') :
    AdvanceOk src p pend
      (match (cursorAt src p pend).consume_char_literal with
       | .error e => .error e
       | .ok (char_lit, l) => .ok (l.emit char_lit)) := by
  rcases h1 : src[p + 1]? with _ | c1
  · left
    rw [char_scanner_eof_cursorAt src p pend hc h1]
    exact ⟨_, rfl⟩
  · by_cases hq : c1 = '\''
    · left
      rw [hq] at h1
      rw [char_scanner_empty_cursorAt src p pend hc h1]
      exact ⟨_, rfl⟩
    · by_cases h2 : src[p + 2]? = some '\''
      · right
        rw [char_scanner_ok_cursorAt src p pend c1 hc h1 hq h2]
        refine ⟨p + 3, (p, Token.Char c1, p + 3), rfl, le_refl _,
          show p ≤ p + 3 by omega, rfl, ?_⟩
        intro txt htxt
        cases htxt
        show slice src p (p + 3) = ['\'', c1, '\'']
        rw [slice_cons hc (by omega), slice_cons h1 (by omega), slice_cons h2 (by omega),
          slice_refl]
      · left
        rw [char_scanner_unterminated_cursorAt src p pend c1 hc h1 hq h2]
        exact ⟨_, rfl⟩

theorem adv_ident (src : Str) (p : Nat) (pend : List Spanned) (c : Chr)
    (hc : src[p]? = some c) :
    AdvanceOk src p pend
      (.ok ((cursorAt src p pend).consume_ident_or_keyword.2.emit
        (cursorAt src p pend).consume_ident_or_keyword.1)) := by
  right
  rw [ident_scanner_cursorAt src p pend c hc]
  refine ⟨p + 1 + ((src.drop (p + 1)).takeWhile is_id_continue).length,
    (p, (Token.try_from_keywords (c :: (src.drop (p + 1)).takeWhile is_id_continue)).getD
      (Token.Ident (c :: (src.drop (p + 1)).takeWhile is_id_continue)),
      p + 1 + ((src.drop (p + 1)).takeWhile is_id_continue).length),
    rfl, le_refl _,
    show p ≤ p + 1 + ((src.drop (p + 1)).takeWhile is_id_continue).length by omega,
    rfl, ?_⟩
  intro txt htxt
  rcases hk : Token.try_from_keywords (c :: (src.drop (p + 1)).takeWhile is_id_continue)
    with _ | kw
  · rw [hk, Option.getD_none] at htxt
    have htxt' : some (c :: (src.drop (p + 1)).takeWhile is_id_continue) = some txt := htxt
    cases htxt'
    show slice src p (p + 1 + ((src.drop (p + 1)).takeWhile is_id_continue).length) =
      c :: (src.drop (p + 1)).takeWhile is_id_continue
    rw [slice_cons hc (by omega), takeWhile_slice src is_id_continue (p + 1)]
  · rw [hk] at htxt
    rw [Option.getD_some, keyword_text_none hk] at htxt
    exact Option.noConfusion htxt

/-- One dispatch step on a canonical cursor with a current character: either a
lexical error, or exactly one well-formed token is appended. -/
theorem advance_one_spec (src : Str) (p : Nat) (pend : List Spanned) (c : Chr)
    (hc : src[p]? = some c) :
    AdvanceOk src p pend (cursorAt src p pend)._advance_token := by
  simp only [Lexer._advance_token, chr0_cursorAt, hc, Lexer.next_chr_is, chr1_cursorAt]
  by_cases h1 : c = '('
  · subst h1
    simp only [if_pos rfl]
    exact adv_expect1 src p pend '(' Token.LParen hc rfl
  simp only [if_neg h1]
  by_cases h2 : c = ')'
  · subst h2
    simp only [if_pos rfl]
    exact adv_expect1 src p pend ')' Token.RParen hc rfl
  simp only [if_neg h2]
  by_cases h3 : c = '['
  · subst h3
    simp only [if_pos rfl]
    exact adv_expect1 src p pend '[' Token.LBracket hc rfl
  simp only [if_neg h3]
  by_cases h4 : c = ']'
  · subst h4
    simp only [if_pos rfl]
    exact adv_expect1 src p pend ']' Token.RBracket hc rfl
  simp only [if_neg h4]
  by_cases h5 : c = '\x7b'
  · subst h5
    simp only [if_pos rfl]
    exact adv_expect1 src p pend '\x7b' Token.LBrace hc rfl
  simp only [if_neg h5]
  by_cases h6 : c = '\x7d'
  · subst h6
    simp only [if_pos rfl]
    exact adv_expect1 src p pend '\x7d' Token.RBrace hc rfl
  simp only [if_neg h6]
  by_cases h7 : c = ':'
  · subst h7
    simp only [if_pos rfl]
    exact adv_expect1 src p pend ':' Token.Colon hc rfl
  simp only [if_neg h7]
  by_cases h8 : c = '@'
  · subst h8
    simp only [if_pos rfl]
    exact adv_expect1 src p pend '@' Token.At hc rfl
  simp only [if_neg h8]
  by_cases h9 : c = '%'
  · subst h9
    simp only [if_pos rfl]
    exact adv_expect1 src p pend '%' Token.Percent hc rfl
  simp only [if_neg h9]
  by_cases h10 : c = ','
  · subst h10
    simp only [if_pos rfl]
    exact adv_expect1 src p pend ',' Token.Comma hc rfl
  simp only [if_neg h10]
  by_cases h11 : c = '#'
  · subst h11
    simp only [if_pos rfl]
    exact adv_expect1 src p pend '#' Token.Hash hc rfl
  simp only [if_neg h11]
  by_cases h12 : c = ';'
  · subst h12
    simp only [if_pos rfl]
    exact adv_expect1 src p pend ';' Token.Semicolon hc rfl
  simp only [if_neg h12]
  by_cases h13 : c = '&'
  · subst h13
    simp only [if_pos rfl]
    exact adv_expect1 src p pend '&' Token.Amper hc rfl
  simp only [if_neg h13]
  by_cases h14 : c = '?'
  · subst h14
    simp only [if_pos rfl]
    exact adv_expect1 src p pend '?' Token.Question hc rfl
  simp only [if_neg h14]
  by_cases h15 : c = '+'
  · subst h15
    simp only [if_pos rfl]
    by_cases hnum : ((src[p + 1]?.map fun c => is_ascii_digit c || c = '.').getD false) = true
    · simp only [hnum, if_true]
      exact adv_number src p pend '+' hc
    · simp only [if_neg hnum]
      exact adv_expect1 src p pend '+' Token.Plus hc rfl
  simp only [if_neg h15]
  by_cases h16 : c = '-'
  · subst h16
    simp only [if_pos rfl]
    by_cases hnum : ((src[p + 1]?.map fun c => is_ascii_digit c || c = '.').getD false) = true
    · simp only [hnum, if_true]
      exact adv_number src p pend '-' hc
    · simp only [if_neg hnum]
      by_cases harr : src[p + 1]? = some '>'
      · simp only [harr, if_pos rfl]
        exact adv_expect2 src p pend '-' '>' Token.MinusRArrow hc harr rfl
      · simp only [if_neg harr]
        exact adv_expect1 src p pend '-' Token.Minus hc rfl
  simp only [if_neg h16]
  by_cases h17 : c = '='
  · subst h17
    simp only [if_pos rfl]
    by_cases heq2 : src[p + 1]? = some '='
    · simp only [heq2, if_pos rfl]
      exact adv_expect2 src p pend '=' '=' Token.Equal2 hc heq2 rfl
    · simp only [if_neg heq2]
      exact adv_expect1 src p pend '=' Token.Equal hc rfl
  simp only [if_neg h17]
  by_cases h18 : c = '!'
  · subst h18
    simp only [if_pos rfl]
    by_cases heq2 : src[p + 1]? = some '='
    · simp only [heq2, if_pos rfl]
      exact adv_expect2 src p pend '!' '=' Token.ExclamationEqual hc heq2 rfl
    · simp only [if_neg heq2]
      exact adv_expect1 src p pend '!' Token.Exclamation hc rfl
  simp only [if_neg h18]
  by_cases h19 : c = '|'
  · subst h19
    simp only [if_pos rfl]
    by_cases heq2 : src[p + 1]? = some '>'
    · simp only [heq2, if_pos rfl]
      exact adv_expect2 src p pend '|' '>' Token.PipeRArrow hc heq2 rfl
    · simp only [if_neg heq2]
      exact adv_expect1 src p pend '|' Token.Pipe hc rfl
  simp only [if_neg h19]
  by_cases h20 : c = '<'
  · subst h20
    simp only [if_pos rfl]
    by_cases heq2 : src[p + 1]? = some '='
    · simp only [heq2, if_pos rfl]
      exact adv_expect2 src p pend '<' '=' Token.LArrowEqual hc heq2 rfl
    · simp only [if_neg heq2]
      by_cases heq3 : src[p + 1]? = some '-'
      · simp only [heq3, if_pos rfl]
        exact adv_expect2 src p pend '<' '-' Token.LArrowMinus hc heq3 rfl
      · simp only [if_neg heq3]
        exact adv_expect1 src p pend '<' Token.LArrow hc rfl
  simp only [if_neg h20]
  by_cases h21 : c = '>'
  · subst h21
    simp only [if_pos rfl]
    by_cases heq2 : src[p + 1]? = some '='
    · simp only [heq2, if_pos rfl]
      exact adv_expect2 src p pend '>' '=' Token.RArrowEqual hc heq2 rfl
    · simp only [if_neg heq2]
      exact adv_expect1 src p pend '>' Token.RArrow hc rfl
  simp only [if_neg h21]
  by_cases h22 : c = '.'
  · subst h22
    simp only [if_pos rfl]
    by_cases hnum : ((src[p + 1]?.map is_ascii_digit).getD false) = true
    · simp only [hnum, if_true]
      exact adv_number src p pend '.' hc
    · simp only [if_neg hnum]
      by_cases heq2 : src[p + 1]? = some '.'
      · simp only [heq2, if_pos rfl]
        exact adv_expect2 src p pend '.' '.' Token.Dot2 hc heq2 rfl
      · simp only [if_neg heq2]
        exact adv_expect1 src p pend '.' Token.Dot hc rfl
  simp only [if_neg h22]
  by_cases h23 : c = '/'
  · subst h23
    simp only [if_pos rfl]
    by_cases heq2 : src[p + 1]? = some '/'
    · simp only [heq2, if_pos rfl]
      exact adv_comment src p pend hc
    · simp only [if_neg heq2]
      exact adv_expect1 src p pend '/' Token.Slash hc rfl
  simp only [if_neg h23]
  by_cases h24 : c = '"'
  · subst h24
    simp only [if_pos rfl]
    exact adv_string src p pend hc
  simp only [if_neg h24]
  by_cases h25 : c = '\''
  · subst h25
    simp only [if_pos rfl]
    exact adv_char src p pend hc
  simp only [if_neg h25]
  by_cases h26 : is_id_start c = true
  · simp only [h26, if_true]
    exact adv_ident src p pend c hc
  simp only [if_neg h26]
  by_cases h27 : is_ascii_digit c = true
  · simp only [h27, if_true]
    exact adv_number src p pend c hc
  simp only [if_neg h27]
  exact Or.inl ⟨_, rfl⟩

/-! ## The whitespace loop and the full advance step -/

theorem posAt_le_posAt {src : Str} {p q : Nat} (h : p ≤ q) : posAt src p ≤ posAt src q := by
  unfold posAt
  split <;> omega

theorem le_posAt (src : Str) (p : Nat) : p ≤ posAt src p := by
  unfold posAt
  split <;> omega

theorem ws_loop_spec (src : Str) : ∀ fuel p pend, src.length - p < fuel →
    ∃ w nls, ws_loop fuel (cursorAt src p pend) = cursorAt src (p + w) (pend ++ nls) ∧
      List.Pairwise (fun a b : Spanned => a.1 ≤ b.1) nls ∧
      (∀ t ∈ nls, posAt src p ≤ t.1 ∧ t.1 ≤ t.2.2 ∧ t.2.2 ≤ posAt src (p + w) ∧
        t.2.1 = Token.NewLine) := by
  intro fuel
  induction fuel with
  | zero => intro p pend h; omega
  | succ fuel ih =>
    intro p pend h
    rcases hc : src[p]? with _ | c
    · refine ⟨0, [], ?_, List.Pairwise.nil, by simp⟩
      simp [ws_loop, chr0_cursorAt, hc]
    · have hne : src.isEmpty = false := ne_nil_of_getElem? hc
      have hlen : p < src.length := lt_length_of_getElem? hc
      by_cases hws : is_whitespace c = true
      · by_cases hnl : c = '\n'
        · subst hnl
          have hstep : ws_loop (fuel + 1) (cursorAt src p pend) =
              ws_loop fuel (cursorAt src (p + 1)
                (pend ++ [(posAt src p, Token.NewLine, posAt src (p + 1))])) := by
            simp [ws_loop, chr0_cursorAt, hc, hws, consume_cursorAt_snd, get_pos_cursorAt,
              emit_cursorAt]
          rcases ih (p + 1) (pend ++ [(posAt src p, Token.NewLine, posAt src (p + 1))])
              (by omega) with ⟨w, nls, heq, hpair, hmem⟩
          refine ⟨w + 1, (posAt src p, Token.NewLine, posAt src (p + 1)) :: nls, ?_, ?_, ?_⟩
          · rw [hstep, heq]
            have harith : p + 1 + w = p + (w + 1) := by omega
            rw [harith]
            simp
          · rw [List.pairwise_cons]
            refine ⟨?_, hpair⟩
            intro t ht
            have h1 := (hmem t ht).1
            have hmono : posAt src p ≤ posAt src (p + 1) := posAt_le_posAt (by omega)
            show posAt src p ≤ t.1
            omega
          · intro t ht
            rcases List.mem_cons.mp ht with rfl | ht'
            · refine ⟨le_refl _, ?_, ?_, rfl⟩
              · show posAt src p ≤ posAt src (p + 1)
                exact posAt_le_posAt (by omega)
              · show posAt src (p + 1) ≤ posAt src (p + (w + 1))
                exact posAt_le_posAt (by omega)
            · rcases hmem t ht' with ⟨hm1, hm2, hm3, hm4⟩
              have hmono : posAt src p ≤ posAt src (p + 1) := posAt_le_posAt (by omega)
              have harith : p + 1 + w = p + (w + 1) := by omega
              rw [harith] at hm3
              exact ⟨by omega, hm2, hm3, hm4⟩
        · have hstep : ws_loop (fuel + 1) (cursorAt src p pend) =
              ws_loop fuel (cursorAt src (p + 1) pend) := by
            simp [ws_loop, chr0_cursorAt, hc, hws, hnl, consume_cursorAt_snd]
          rcases ih (p + 1) pend (by omega) with ⟨w, nls, heq, hpair, hmem⟩
          refine ⟨w + 1, nls, ?_, hpair, ?_⟩
          · rw [hstep, heq]
            have harith : p + 1 + w = p + (w + 1) := by omega
            rw [harith]
          · intro t ht
            rcases hmem t ht with ⟨hm1, hm2, hm3, hm4⟩
            have hmono : posAt src p ≤ posAt src (p + 1) := posAt_le_posAt (by omega)
            have harith : p + 1 + w = p + (w + 1) := by omega
            rw [harith] at hm3
            exact ⟨by omega, hm2, hm3, hm4⟩
      · refine ⟨0, [], ?_, List.Pairwise.nil, by simp⟩
        simp [ws_loop, chr0_cursorAt, hc, hws]

/-- One full `advance_token` step on a canonical cursor: either a lexical
error, or a non-empty batch of tokens is appended, in source order, all with
well-formed spans bounded by the cursor movement and satisfying the (amended)
round-trip slice property. -/
theorem advance_spec (src : Str) (p : Nat) (pend : List Spanned) :
    (∃ e, (cursorAt src p pend).advance_token = .error e) ∨
    (∃ p' extra, (cursorAt src p pend).advance_token = .ok (cursorAt src p' (pend ++ extra)) ∧
      p ≤ p' ∧ extra ≠ [] ∧
      List.Pairwise (fun a b : Spanned => a.1 ≤ b.1) extra ∧
      (∀ t ∈ extra, posAt src p ≤ t.1 ∧ t.1 ≤ t.2.2 ∧ t.2.2 ≤ posAt src p' ∧
        SliceOK src t)) := by
  rcases ws_loop_spec src ((cursorAt src p pend).stream.length + 3) p pend (fuel_ok ..)
    with ⟨w, nls, heq, hpair, hmem⟩
  have hadv : (cursorAt src p pend).advance_token =
      match (cursorAt src (p + w) (pend ++ nls)).chr0 with
      | some _ => (cursorAt src (p + w) (pend ++ nls))._advance_token
      | none =>
        .ok ((cursorAt src (p + w) (pend ++ nls)).emit
          ((cursorAt src (p + w) (pend ++ nls)).get_pos, Token.EOF,
           (cursorAt src (p + w) (pend ++ nls)).get_pos)) := by
    simp only [Lexer.advance_token, heq]
  rcases hc : src[p + w]? with _ | c
  · right
    refine ⟨p + w, nls ++ [(posAt src (p + w), Token.EOF, posAt src (p + w))], ?_, by omega,
      by simp, ?_, ?_⟩
    · rw [hadv]
      simp only [chr0_cursorAt, hc, emit_cursorAt, get_pos_cursorAt, List.append_assoc]
    · rw [List.pairwise_append]
      refine ⟨hpair, List.pairwise_singleton .., ?_⟩
      intro a ha b hb
      rw [List.mem_singleton] at hb
      subst hb
      have h1 := (hmem a ha).2.2.1
      have h2 := (hmem a ha).2.1
      show a.1 ≤ posAt src (p + w)
      exact le_trans h2 h1
    · intro t ht
      rcases List.mem_append.mp ht with ht' | ht'
      · rcases hmem t ht' with ⟨hm1, hm2, hm3, hm4⟩
        exact ⟨hm1, hm2, hm3, fun txt htxt => by rw [hm4] at htxt; exact Option.noConfusion htxt⟩
      · rw [List.mem_singleton] at ht'
        subst ht'
        refine ⟨posAt_le_posAt (by omega), le_refl _, le_refl _, ?_⟩
        intro txt htxt
        exact Option.noConfusion htxt
  · rcases advance_one_spec src (p + w) (pend ++ nls) c hc with ⟨e, herr⟩ | ⟨p', t, hok, ht1, ht2, ht3, ht4⟩
    · left
      refine ⟨e, ?_⟩
      rw [hadv]
      simp only [chr0_cursorAt, hc]
      exact herr
    · right
      have hne : src.isEmpty = false := ne_nil_of_getElem? hc
      have hpp' : p ≤ p' := by
        rw [← ht3]
        exact le_trans (le_trans (Nat.le_add_right p w) ht1) ht2
      refine ⟨p', nls ++ [t], ?_, hpp', by simp, ?_, ?_⟩
      · rw [hadv]
        simp only [chr0_cursorAt, hc]
        rw [hok, List.append_assoc]
      · rw [List.pairwise_append]
        refine ⟨hpair, List.pairwise_singleton .., ?_⟩
        intro a ha b hb
        rw [List.mem_singleton] at hb
        rw [hb]
        have h1 := (hmem a ha).2.2.1
        have h2 := (hmem a ha).2.1
        rw [posAt_eq hne] at h1
        exact le_trans h2 (le_trans h1 ht1)
      · intro u hu
        rcases List.mem_append.mp hu with hu' | hu'
        · rcases hmem u hu' with ⟨hm1, hm2, hm3, hm4⟩
          rw [posAt_eq hne] at hm3
          have hle : (p + w : Nat) ≤ posAt src p' :=
            le_trans (le_trans ht1 (le_trans ht2 (le_of_eq ht3))) (le_posAt src p')
          exact ⟨hm1, hm2, le_trans hm3 (le_trans (le_trans ht1
              (le_trans ht2 (le_of_eq ht3))) (le_posAt src p')),
            fun txt htxt => by rw [hm4] at htxt; exact Option.noConfusion htxt⟩
        · rw [List.mem_singleton] at hu'
          subst hu'
          refine ⟨?_, ht2, ?_, ht4⟩
          · rw [posAt_eq hne]
            exact le_trans (Nat.le_add_right p w) ht1
          · exact le_trans (le_of_eq ht3) (le_posAt src p')

/-! ## The reachable-state invariant -/

/-- The state invariant every reachable lexer satisfies: the cursor has the
canonical shape for some position `p`, and the pending queue holds tokens in
source order, with spans ending no later than the current position, all
satisfying the (amended) round-trip slice property. -/
def InvAt (src : Str) (l : Lexer) (p : Nat) : Prop :=
  l = cursorAt src p l.pending ∧
  List.Pairwise (fun a b : Spanned => a.1 ≤ b.1) l.pending ∧
  ∀ t ∈ l.pending, t.1 ≤ t.2.2 ∧ t.2.2 ≤ posAt src p ∧ SliceOK src t

theorem next_spec {src : Str} {l : Lexer} {p : Nat} {t : Spanned} {l' : Lexer}
    (hInv : InvAt src l p) (h : l.next = .ok (t, l')) :
    ∃ p', p ≤ p' ∧ InvAt src l' p' ∧ SliceOK src t ∧ t.1 ≤ t.2.2 ∧
      t.2.2 ≤ posAt src p' ∧ ∀ u ∈ l'.pending, t.1 ≤ u.1 := by
  obtain ⟨hcur, hpair, hmem⟩ := hInv
  rcases hpend : l.pending with _ | ⟨t0, rest⟩
  · rw [hpend] at hcur
    simp only [Lexer.next, hcur, hpend] at h
    rcases advance_spec src p [] with ⟨e, herr⟩ | ⟨p', extra, hok, hpp, hext, hP, hM⟩
    · rw [herr] at h
      exact Except.noConfusion h
    · rw [hok] at h
      rcases hex : extra with _ | ⟨t1, rest1⟩
      · exact absurd hex hext
      · subst hex
        simp only [List.nil_append, cursorAt] at h
        injection h with h
        injection h with h1 h2
        subst h1
        refine ⟨p', hpp, ?_, (hM t1 (by simp)).2.2.2, (hM t1 (by simp)).2.1,
          (hM t1 (by simp)).2.2.1, ?_⟩
        · subst h2
          rw [List.pairwise_cons] at hP
          refine ⟨rfl, hP.2, ?_⟩
          intro u hu
          exact ⟨(hM u (by simp [hu])).2.1, (hM u (by simp [hu])).2.2.1,
            (hM u (by simp [hu])).2.2.2⟩
        · subst h2
          intro u hu
          rw [List.pairwise_cons] at hP
          exact hP.1 u hu
  · rw [hpend] at hcur hpair hmem
    simp only [Lexer.next, hpend] at h
    injection h with h
    injection h with h1 h2
    subst h1
    refine ⟨p, le_refl p, ?_, (hmem t0 (by simp)).2.2, (hmem t0 (by simp)).1,
      (hmem t0 (by simp)).2.1, ?_⟩
    · subst h2
      rw [List.pairwise_cons] at hpair
      refine ⟨?_, hpair.2, ?_⟩
      · rw [hcur]
        rfl
      · intro u hu
        exact hmem u (by simp [hu])
    · subst h2
      rw [List.pairwise_cons] at hpair
      intro u hu
      exact hpair.1 u hu

theorem next_start_ge {src : Str} {l : Lexer} {p a : Nat} {t : Spanned} {l' : Lexer}
    (hInv : InvAt src l p) (ha1 : a ≤ posAt src p)
    (ha2 : ∀ u ∈ l.pending, a ≤ u.1) (h : l.next = .ok (t, l')) : a ≤ t.1 := by
  obtain ⟨hcur, hpair, hmem⟩ := hInv
  rcases hpend : l.pending with _ | ⟨t0, rest⟩
  · rw [hpend] at hcur
    simp only [Lexer.next, hcur, hpend] at h
    rcases advance_spec src p [] with ⟨e, herr⟩ | ⟨p', extra, hok, hpp, hext, hP, hM⟩
    · rw [herr] at h
      exact Except.noConfusion h
    · rw [hok] at h
      rcases hex : extra with _ | ⟨t1, rest1⟩
      · exact absurd hex hext
      · subst hex
        simp only [List.nil_append, cursorAt] at h
        injection h with h
        injection h with h1 h2
        subst h1
        exact le_trans ha1 (hM t1 (by simp)).1
  · simp only [Lexer.next, hpend] at h
    injection h with h
    injection h with h1 h2
    subst h1
    exact ha2 t0 (by rw [hpend]; simp)

/-- States of one lexer instance reachable from construction through
successful `next` calls. -/
inductive Reachable (src : Str) : Lexer → Prop where
  | base : Reachable src (Lexer.new (mkStream src))
  | step {l : Lexer} {t : Spanned} {l' : Lexer} :
      Reachable src l → l.next = .ok (t, l') → Reachable src l'

theorem reachable_inv {src : Str} {l : Lexer} (h : Reachable src l) :
    ∃ p, InvAt src l p := by
  induction h with
  | base =>
    have hn := new_cursorAt src
    refine ⟨0, ?_, ?_, ?_⟩
    · rw [hn]
      rfl
    · rw [hn]
      exact List.Pairwise.nil
    · rw [hn]
      intro t ht
      exact absurd ht (List.not_mem_nil t)
  | step hr hn ih =>
    obtain ⟨p, hInv⟩ := ih
    obtain ⟨p', _, hInv', _⟩ := next_spec hInv hn
    exact ⟨p', hInv'⟩

/-! ## Claim theorems -/

/-- Claim C3: `"00"` lexes as a decimal `Int` with value `"00"`; `"01"`,
`"001"` and `"07"` each fail with `IllegalLiteral` whose offending character
is the first non-zero digit after the leading zero and whose span ends just
past that digit. -/
theorem leading_zero_rule :
    (Lexer.new (mkStream ['0', '0'])).nextToken =
      some (0, Token.Int Base.Decimal ['0', '0'], 2) ∧
    (Lexer.new (mkStream ['0', '1'])).nextError =
      some ⟨LexicalErrorType.IllegalLiteral '1', ⟨0, 2⟩⟩ ∧
    (Lexer.new (mkStream ['0', '0', '1'])).nextError =
      some ⟨LexicalErrorType.IllegalLiteral '1', ⟨0, 3⟩⟩ ∧
    (Lexer.new (mkStream ['0', '7'])).nextError =
      some ⟨LexicalErrorType.IllegalLiteral '7', ⟨0, 2⟩⟩ :=
  ⟨rfl, rfl, rfl, rfl⟩

/-- Claim C4 counterexample: the claimed universal rule — an underscore may
appear only strictly between two digits valid for the current radix/part — is
false of the program.  `Hex`, `Oct` and `Bin` are entered directly from the
radix marker with zero digits consumed, and each accepts `'_'`, so `"0x_1"`,
`"0o_1"` and `"0b_1"` lex successfully as `Int` tokens although the character
before the underscore is the radix marker, not a digit (`'x'` is not even a
hex digit). -/
theorem underscore_after_radix_counterexample :
    (Lexer.new (mkStream ['0', 'x', '_', '1'])).nextToken =
      some (0, Token.Int Base.Hexadecimal ['0', 'x', '_', '1'], 4) ∧
    (Lexer.new (mkStream ['0', 'o', '_', '1'])).nextToken =
      some (0, Token.Int Base.Octal ['0', 'o', '_', '1'], 4) ∧
    (Lexer.new (mkStream ['0', 'b', '_', '1'])).nextToken =
      some (0, Token.Int Base.Binary ['0', 'b', '_', '1'], 4) ∧
    state_transition State.Zero (some 'x') = State.Hex ∧
    state_transition State.Hex (some '_') = State.HexUnderscore ∧
    is_ascii_hexdigit 'x' = false :=
  ⟨rfl, rfl, rfl, rfl, rfl, rfl⟩

/-- Claim C4 (amended): an underscore is accepted exactly in the
digit-accumulating states `Int`, `Frac`, `ExpInt`, `Hex`, `Oct`, `Bin` — which
includes the position right after a radix prefix, where no digit precedes —
and every `*Underscore` state requires a digit valid for its radix/part next
(whitespace, end of input, or another underscore is an error), so underscores
are never doubled and never trailing.  The claim's examples behave as stated:
`"1_"`, `"0_3"`, `"1__3"`, `"0e_3"`, `"0_x3"` all fail as `IllegalLiteral`
with offending character `'_'`, while `"1_000.000_1"` lexes as a float with
the underscores retained verbatim in the value text. -/
theorem underscore_rule :
    (∀ st : State, st ≠ State.End → st ≠ State.Error →
      (state_transition st (some '_') ≠ State.Error ↔
        (st = State.Int ∨ st = State.Frac ∨ st = State.ExpInt ∨
         st = State.Hex ∨ st = State.Oct ∨ st = State.Bin))) ∧
    (∀ c : Chr, is_whitespace c = false →
      state_transition State.IntUnderscore (some c) =
        (if is_ascii_digit c = true then State.Int else State.Error) ∧
      state_transition State.FracUnderscore (some c) =
        (if is_ascii_digit c = true then State.Frac else State.Error) ∧
      state_transition State.ExpIntUnderscore (some c) =
        (if is_ascii_digit c = true then State.ExpInt else State.Error) ∧
      state_transition State.HexUnderscore (some c) =
        (if is_ascii_hexdigit c = true then State.Hex else State.Error) ∧
      state_transition State.OctUnderscore (some c) =
        (if ('0' ≤ c && c ≤ '7') = true then State.Oct else State.Error) ∧
      state_transition State.BinUnderscore (some c) =
        (if (c = '0' || c = '1' : Bool) = true then State.Bin else State.Error)) ∧
    (∀ u : State,
      (u = State.IntUnderscore ∨ u = State.FracUnderscore ∨
       u = State.ExpIntUnderscore ∨ u = State.HexUnderscore ∨
       u = State.OctUnderscore ∨ u = State.BinUnderscore) →
      state_transition u none = State.Error ∧
      state_transition u (some '_') = State.Error ∧
      ∀ c : Chr, is_whitespace c = true → state_transition u (some c) = State.Error) ∧
    (Lexer.new (mkStream ['1', '_'])).nextError =
      some ⟨LexicalErrorType.IllegalLiteral '_', ⟨0, 2⟩⟩ ∧
    (Lexer.new (mkStream ['0', '_', '3'])).nextError =
      some ⟨LexicalErrorType.IllegalLiteral '_', ⟨0, 2⟩⟩ ∧
    (Lexer.new (mkStream ['1', '_', '_', '3'])).nextError =
      some ⟨LexicalErrorType.IllegalLiteral '_', ⟨0, 3⟩⟩ ∧
    (Lexer.new (mkStream ['0', 'e', '_', '3'])).nextError =
      some ⟨LexicalErrorType.IllegalLiteral '_', ⟨0, 3⟩⟩ ∧
    (Lexer.new (mkStream ['0', '_', 'x', '3'])).nextError =
      some ⟨LexicalErrorType.IllegalLiteral '_', ⟨0, 2⟩⟩ ∧
    (Lexer.new (mkStream ['1', '_', '0', '0', '0', '.', '0', '0', '0', '_', '1'])).nextToken =
      some (0, Token.Float false ['1', '_', '0', '0', '0', '.', '0', '0', '0', '_', '1'], 11) := by
  refine ⟨?_, ?_, ?_, rfl, rfl, rfl, rfl, rfl, rfl⟩
  · intro st h1 h2
    cases st <;> first | exact absurd rfl h1 | exact absurd rfl h2 | decide
  · intro c hws
    refine ⟨?_, ?_, ?_, ?_, ?_, ?_⟩ <;> simp [state_transition, hws]
  · intro u hu
    rcases hu with rfl | rfl | rfl | rfl | rfl | rfl <;>
      refine ⟨rfl, rfl, ?_⟩ <;>
      (intro c hws
       simp [state_transition, hws, State.terminable])

/-- Witness for `underscore_rule`: `Hex` accepts an underscore,
`HexUnderscore` maps `'g'` (not a hex digit) to `Error`, and a trailing
underscore (`IntUnderscore` at end of input) is an error. -/
theorem underscore_rule_witness :
    (state_transition State.Hex (some '_') ≠ State.Error ↔
      (State.Hex = State.Int ∨ State.Hex = State.Frac ∨ State.Hex = State.ExpInt ∨
       State.Hex = State.Hex ∨ State.Hex = State.Oct ∨ State.Hex = State.Bin)) ∧
    state_transition State.HexUnderscore (some 'g') =
      (if is_ascii_hexdigit 'g' = true then State.Hex else State.Error) ∧
    state_transition State.IntUnderscore none = State.Error :=
  ⟨underscore_rule.1 State.Hex (by decide) (by decide),
   (underscore_rule.2.1 'g' (by decide)).2.2.2.1,
   (underscore_rule.2.2.1 State.IntUnderscore (Or.inl rfl)).1⟩

/-- Claim C1 counterexample: a comment token's span starts only after the
slashes are consumed, so the source slice over the span is the content with
the slashes stripped — not the consumed comment form `"// x"` the claim
asserts.  On input `"// x"` the emitted token is `Comment " x"` with span
`[2, 4)`, and `source[2..4) = " x" ≠ "// x"`. -/
theorem comment_span_counterexample :
    (Lexer.new (mkStream ['/', '/', ' ', 'x'])).nextToken =
      some (2, Token.Comment [' ', 'x'], 4) ∧
    slice ['/', '/', ' ', 'x'] 2 4 = [' ', 'x'] ∧
    TokenTextClaimed (Token.Comment [' ', 'x']) = some ['/', '/', ' ', 'x'] ∧
    ¬ (∀ txt, TokenTextClaimed (Token.Comment [' ', 'x']) = some txt →
        slice ['/', '/', ' ', 'x'] 2 4 = txt) := by
  refine ⟨rfl, rfl, rfl, ?_⟩
  intro hfalse
  have := hfalse ['/', '/', ' ', 'x'] rfl
  simp [slice] at this

/-- Claim C2 counterexample: in the numeric FSM, whitespace or end-of-input
maps the `Dot` state to `End`, not `Error` — and `Dot` is only ever entered
right after the dot (the FSM has no path from `Frac` back to `Dot`), so every
`Dot` state is a "bare Dot".  Consequently `"1."` lexes as a float. -/
theorem dot_terminates_counterexample :
    state_transition State.Dot none = State.End ∧
    state_transition State.Dot (some ' ') = State.End ∧
    (∀ c : Chr, state_transition State.Frac (some c) ≠ State.Dot) ∧
    (Lexer.new (mkStream ['1', '.'])).nextToken =
      some (0, Token.Float false ['1', '.'], 2) := by
  refine ⟨rfl, rfl, ?_, rfl⟩
  intro c
  by_cases hws : is_whitespace c
  · by_cases ht : State.Frac.terminable <;> simp [state_transition, hws, ht]
  · simp only [state_transition, hws, Bool.false_eq_true, if_false]
    split_ifs <;> simp

/-- Claim C2 (amended): from every non-final state, whitespace or end-of-input
maps to `End` exactly when the state is one of `Zero, Int, Dot, Frac, ExpInt,
Hex, Oct, Bin` (including the bare `Dot` state — the FSM does not record how
`Dot` was reached), and to `Error` from every other state, including
mid-exponent states and the states right after a lone underscore. -/
theorem fsm_whitespace_eof_terminators (st : State) (copt : Option Chr)
    (h1 : st ≠ State.End) (h2 : st ≠ State.Error)
    (h3 : copt = none ∨ ∃ c, copt = some c ∧ is_whitespace c = true) :
    (state_transition st copt = State.End ↔
      (st = State.Zero ∨ st = State.Int ∨ st = State.Dot ∨ st = State.Frac ∨
       st = State.ExpInt ∨ st = State.Hex ∨ st = State.Oct ∨ st = State.Bin)) ∧
    (¬ (st = State.Zero ∨ st = State.Int ∨ st = State.Dot ∨ st = State.Frac ∨
        st = State.ExpInt ∨ st = State.Hex ∨ st = State.Oct ∨ st = State.Bin) →
      state_transition st copt = State.Error) := by
  rcases h3 with rfl | ⟨c, rfl, hws⟩ <;>
    cases st <;>
    simp_all [state_transition, State.terminable]

/-- Witness for `fsm_whitespace_eof_terminators` at the `IntUnderscore` state
and end-of-input. -/
theorem fsm_whitespace_eof_terminators_witness :
    (state_transition State.IntUnderscore none = State.End ↔
      (State.IntUnderscore = State.Zero ∨ State.IntUnderscore = State.Int ∨
       State.IntUnderscore = State.Dot ∨ State.IntUnderscore = State.Frac ∨
       State.IntUnderscore = State.ExpInt ∨ State.IntUnderscore = State.Hex ∨
       State.IntUnderscore = State.Oct ∨ State.IntUnderscore = State.Bin)) ∧
    (¬ (State.IntUnderscore = State.Zero ∨ State.IntUnderscore = State.Int ∨
        State.IntUnderscore = State.Dot ∨ State.IntUnderscore = State.Frac ∨
        State.IntUnderscore = State.ExpInt ∨ State.IntUnderscore = State.Hex ∨
        State.IntUnderscore = State.Oct ∨ State.IntUnderscore = State.Bin) →
      state_transition State.IntUnderscore none = State.Error) :=
  fsm_whitespace_eof_terminators State.IntUnderscore none (by decide) (by decide)
    (Or.inl rfl)

/-- Claim C1 (amended): for every token the lexer emits whose kind carries
literal text (`Ident`, `Int`, `Float`, `String`, `Char`, `Comment`,
`CommentDoc`) or is fixed punctuation, the source slice over the token's
half-open span `[start, end)` is exactly the token's literal text — where,
for `String`/`Char`, the text includes the surrounding quotes, and for
comments it is the content with the leading slashes stripped (the comment
span starts only after the slashes; see `comment_span_counterexample`). -/
theorem token_slice_roundtrip {src : Str} {l : Lexer} {t : Spanned} {l' : Lexer}
    (hr : Reachable src l) (hn : l.next = .ok (t, l')) :
    t.1 ≤ t.2.2 ∧ ∀ txt, TokenText t.2.1 = some txt → slice src t.1 t.2.2 = txt := by
  obtain ⟨p, hInv⟩ := reachable_inv hr
  obtain ⟨p', _, _, hS, hle, _, _⟩ := next_spec hInv hn
  exact ⟨hle, hS⟩

/-- Witness for `token_slice_roundtrip` on the source `"ab"`, whose first
token is `Ident "ab"` over span `[0, 2)`. -/
theorem token_slice_roundtrip_witness :
    ((0 : LOC), Token.Ident ['a', 'b'], (2 : LOC)).1 ≤
      ((0 : LOC), Token.Ident ['a', 'b'], (2 : LOC)).2.2 ∧
    ∀ txt, TokenText ((0 : LOC), Token.Ident ['a', 'b'], (2 : LOC)).2.1 = some txt →
      slice ['a', 'b'] ((0 : LOC), Token.Ident ['a', 'b'], (2 : LOC)).1
        ((0 : LOC), Token.Ident ['a', 'b'], (2 : LOC)).2.2 = txt :=
  @token_slice_roundtrip ['a', 'b'] (Lexer.new (mkStream ['a', 'b']))
    (0, Token.Ident ['a', 'b'], 2)
    { stream := [], pending := [], chr0 := none, chr1 := none,
      loc0 := 2, loc1 := 3, location := 0 }
    Reachable.base rfl

/-- Claim C5: `+`/`-` with a digit or `.` as lookahead are scanned as the sign
prefix of a numeric literal (the dispatch delegates to the number scanner,
which emits exactly one token on success); otherwise `+` is the `Plus`
operator and `-` is the arrow token when followed by `>`, else `Minus`.
Concretely, `"-0"` is one decimal `Int` token and `"->"` one `MinusRArrow`. -/
theorem sign_operator_disambiguation (l : Lexer) :
    ((l.chr0 = some '+' ∨ l.chr0 = some '-') →
      l.next_chr_is (fun c => is_ascii_digit c || c = '.') = true →
      l._advance_token = l.number_path) ∧
    (l.chr0 = some '+' → l.next_chr_is (fun c => is_ascii_digit c || c = '.') = false →
      l._advance_token = .ok (l.consume_expect_token Token.Plus 1)) ∧
    (l.chr0 = some '-' → l.next_chr_is (fun c => is_ascii_digit c || c = '.') = false →
      l.chr1 = some '>' →
      l._advance_token = .ok (l.consume_expect_token Token.MinusRArrow 2)) ∧
    (l.chr0 = some '-' → l.next_chr_is (fun c => is_ascii_digit c || c = '.') = false →
      l.chr1 ≠ some '>' →
      l._advance_token = .ok (l.consume_expect_token Token.Minus 1)) ∧
    (∀ sp l', l.consume_number_like = .ok (sp, l') → l.number_path = .ok (l'.emit sp)) ∧
    (Lexer.new (mkStream ['-', '0'])).nextToken =
      some (0, Token.Int Base.Decimal ['-', '0'], 2) ∧
    (Lexer.new (mkStream ['-', '>'])).nextToken = some (0, Token.MinusRArrow, 2) ∧
    (Lexer.new (mkStream ['+', '1'])).nextToken =
      some (0, Token.Int Base.Decimal ['+', '1'], 2) ∧
    (Lexer.new (mkStream ['+', 'a'])).nextToken = some (0, Token.Plus, 1) := by
  refine ⟨?_, ?_, ?_, ?_, ?_, rfl, rfl, rfl, rfl⟩
  · rintro (h | h) hnum <;> simp [Lexer._advance_token, h, hnum]
  · intro h hnum
    simp [Lexer._advance_token, h, hnum]
  · intro h hnum harr
    simp [Lexer._advance_token, h, hnum, harr]
  · intro h hnum harr
    simp [Lexer._advance_token, h, hnum, harr]
  · intro sp l' h
    simp [Lexer.number_path, h]

/-- Witness for `sign_operator_disambiguation`: on `"+1"` the dispatcher
delegates to the number scanner. -/
theorem sign_operator_disambiguation_witness :
    (Lexer.new (mkStream ['+', '1']))._advance_token =
      (Lexer.new (mkStream ['+', '1'])).number_path :=
  (sign_operator_disambiguation (Lexer.new (mkStream ['+', '1']))).1
    (Or.inl (by decide)) (by decide)

/-- The source text of claim C6's example, `"// This is \nComment"`. -/
def c6src : Str :=
  ['/', '/', ' ', 'T', 'h', 'i', 's', ' ', 'i', 's', ' ', '\n',
   'C', 'o', 'm', 'm', 'e', 'n', 't']

/-- Claim C6: a comment's content is every character after the slashes up to
but excluding the first newline or end of input, and the scanner stops at the
newline without consuming it (the character at the final cursor position is
the newline itself, or end of input).  On `"// This is \nComment"` the lexer
yields `Comment " This is "` with span `[2, 11)`, then a separate `NewLine`
token, then `Ident "Comment"`. -/
theorem comment_scanning :
    (∀ (src : Str) (p : Nat) (pend : List Spanned),
      src[p]? = some '/' → src[p + 2]? ≠ some '/' →
      (cursorAt src p pend).consume_comment_or_doc =
        ((p + 2, Token.Comment ((src.drop (p + 2)).takeWhile not_newline),
          p + 2 + ((src.drop (p + 2)).takeWhile not_newline).length),
         cursorAt src (p + 2 + ((src.drop (p + 2)).takeWhile not_newline).length) pend)) ∧
    (∀ (src : Str) (q : Nat),
      src[q + ((src.drop q).takeWhile not_newline).length]? = some '\n' ∨
      src[q + ((src.drop q).takeWhile not_newline).length]? = none) ∧
    takeTokens 3 (Lexer.new (mkStream c6src)) =
      [(2, Token.Comment [' ', 'T', 'h', 'i', 's', ' ', 'i', 's', ' '], 11),
       (11, Token.NewLine, 12),
       (12, Token.Ident ['C', 'o', 'm', 'm', 'e', 'n', 't'], 19)] :=
  ⟨comment_scanner_cursorAt, comment_stop, rfl⟩

/-- Witness for `comment_scanning` on the comment `"//a"` at position 0. -/
theorem comment_scanning_witness :
    (cursorAt ['/', '/', 'a'] 0 []).consume_comment_or_doc =
      ((0 + 2, Token.Comment (((['/', '/', 'a'] : Str).drop (0 + 2)).takeWhile not_newline),
        0 + 2 + ((((['/', '/', 'a'] : Str).drop (0 + 2))).takeWhile not_newline).length),
       cursorAt ['/', '/', 'a']
         (0 + 2 + ((((['/', '/', 'a'] : Str).drop (0 + 2))).takeWhile not_newline).length) []) :=
  comment_scanning.1 ['/', '/', 'a'] 0 [] (by decide) (by decide)

/-- Claim C7: with the input exhausted (`chr0 = none`) and no pending tokens,
`next()` emits an `EOF` token with the zero-width span `[pos, pos)` at the
current position and leaves the lexer unchanged; this position is
well-defined because a `consume` past the end of the stream advances the
offsets by exactly one (`loc0` takes the old `loc1`, `loc1` increments), so
on the canonical cursor `get_pos` advances by exactly one per consume. -/
theorem eof_token_zero_width (l : Lexer) :
    (l.pending = [] → l.chr0 = none →
      l.next = .ok ((l.get_pos, Token.EOF, l.get_pos), { l with pending := [] })) ∧
    (l.stream = [] → l.consume.2.loc0 = l.loc1 ∧ l.consume.2.loc1 = l.loc1 + 1) ∧
    (∀ (src : Str) (p : Nat) (pend : List Spanned),
      (cursorAt src p pend).consume.2.get_pos = (cursorAt src p pend).get_pos + 1) := by
  refine ⟨?_, ?_, ?_⟩
  · intro h0 h1
    simp only [Lexer.next, h0, Lexer.advance_token]
    rw [show ws_loop (l.stream.length + 3) l = l by
      rw [show l.stream.length + 3 = (l.stream.length + 2) + 1 from rfl]
      simp [ws_loop, h1]]
    simp [h1, Lexer.emit, h0]
  · intro hst
    simp [Lexer.consume, hst]
  · intro src p pend
    rw [consume_cursorAt_snd]
    simp [get_pos_cursorAt, posAt_succ]

/-- Witness for `eof_token_zero_width` on the empty input (where the priming
consumes have already run past the end, so the position is 1). -/
theorem eof_token_zero_width_witness :
    (Lexer.new (mkStream [])).next =
      .ok (((Lexer.new (mkStream [])).get_pos, Token.EOF,
            (Lexer.new (mkStream [])).get_pos),
           { Lexer.new (mkStream []) with pending := [] }) :=
  (eof_token_zero_width (Lexer.new (mkStream []))).1 rfl rfl

/-- Claim C8: tokens come back in source order — across two consecutive
successful `next()` calls on a reachable lexer state, the second token's
start offset is at least the first's — and `next()` drains the pending queue
FIFO, returning the oldest buffered token first. -/
theorem tokens_in_source_order {src : Str} {l l1 l2 : Lexer} {t1 t2 : Spanned}
    (hr : Reachable src l) (h1 : l.next = .ok (t1, l1)) (h2 : l1.next = .ok (t2, l2)) :
    t1.1 ≤ t2.1 ∧
    ∀ (l0 : Lexer) (t : Spanned) (rest : List Spanned), l0.pending = t :: rest →
      l0.next = .ok (t, { l0 with pending := rest }) := by
  constructor
  · obtain ⟨p, hInv⟩ := reachable_inv hr
    obtain ⟨p1, _, hInv1, _, hle, hbound, hpend⟩ := next_spec hInv h1
    exact next_start_ge hInv1 (le_trans hle hbound) hpend h2
  · intro l0 t rest h
    simp [Lexer.next, h]

/-- Witness for `tokens_in_source_order` on the source `"a b"`: the first
`next` returns `Ident "a"` starting at 0, the second `Ident "b"` starting
at 2. -/
theorem tokens_in_source_order_witness :
    ((0 : LOC), Token.Ident ['a'], (1 : LOC)).1 ≤
      ((2 : LOC), Token.Ident ['b'], (3 : LOC)).1 ∧
    ∀ (l0 : Lexer) (t : Spanned) (rest : List Spanned), l0.pending = t :: rest →
      l0.next = .ok (t, { l0 with pending := rest }) :=
  @tokens_in_source_order ['a', ' ', 'b'] (Lexer.new (mkStream ['a', ' ', 'b']))
    { stream := [], pending := [], chr0 := some ' ', chr1 := some 'b',
      loc0 := 1, loc1 := 2, location := 0 }
    { stream := [], pending := [], chr0 := none, chr1 := none,
      loc0 := 3, loc1 := 4, location := 0 }
    (0, Token.Ident ['a'], 1) (2, Token.Ident ['b'], 3)
    Reachable.base rfl rfl

/-- Claim C9: a string literal that reaches end of input before a closing
quote fails with `UnexpectedStringEnd` spanning from the opening quote to the
current (end) position; an immediately-closed character literal fails with
`EmptyCharLiteral`; a character literal whose single character is not
immediately followed by a closing quote — including end of input right after
the opening quote and multi-character literals — fails with
`UnexpectedCharEnd`; a well-formed `'c'` yields the single `Char` token and a
well-formed string yields its raw interior text without the quotes. -/
theorem string_char_literal_errors :
    (∀ (src : Str) (p : Nat) (pend : List Spanned),
      src[p]? = some '"' →
      src[p + 1 + ((src.drop (p + 1)).takeWhile not_quote).length]? = none →
      (cursorAt src p pend).consume_string_literal =
        .error ⟨LexicalErrorType.UnexpectedStringEnd,
          ⟨p, p + 1 + ((src.drop (p + 1)).takeWhile not_quote).length⟩⟩) ∧
    (∀ (src : Str) (p : Nat) (pend : List Spanned),
      src[p]? = some '\'' → src[p + 1]? = some '\'' →
      (cursorAt src p pend).consume_char_literal =
        .error ⟨LexicalErrorType.EmptyCharLiteral, ⟨p, p + 2⟩⟩) ∧
    (∀ (src : Str) (p : Nat) (pend : List Spanned),
      src[p]? = some '\'' → src[p + 1]? = none →
      (cursorAt src p pend).consume_char_literal =
        .error ⟨LexicalErrorType.UnexpectedCharEnd, ⟨p, p + 1⟩⟩) ∧
    (∀ (src : Str) (p : Nat) (pend : List Spanned) (c : Chr),
      src[p]? = some '\'' → src[p + 1]? = some c → c ≠ '\'' →
      src[p + 2]? ≠ some '\'' →
      (cursorAt src p pend).consume_char_literal =
        .error ⟨LexicalErrorType.UnexpectedCharEnd, ⟨p, p + 2⟩⟩) ∧
    (∀ (src : Str) (p : Nat) (pend : List Spanned) (c : Chr),
      src[p]? = some '\'' → src[p + 1]? = some c → c ≠ '\'' →
      src[p + 2]? = some '\'' →
      (cursorAt src p pend).consume_char_literal =
        .ok ((p, Token.Char c, p + 3), cursorAt src (p + 3) pend)) ∧
    (∀ (src : Str) (p : Nat) (pend : List Spanned),
      src[p]? = some '"' →
      src[p + 1 + ((src.drop (p + 1)).takeWhile not_quote).length]? = some '"' →
      (cursorAt src p pend).consume_string_literal =
        .ok ((p, Token.String ((src.drop (p + 1)).takeWhile not_quote),
              p + 1 + ((src.drop (p + 1)).takeWhile not_quote).length + 1),
             cursorAt src (p + 1 + ((src.drop (p + 1)).takeWhile not_quote).length + 1)
               pend)) :=
  ⟨string_scanner_err_cursorAt, char_scanner_empty_cursorAt, char_scanner_eof_cursorAt,
   char_scanner_unterminated_cursorAt, char_scanner_ok_cursorAt, string_scanner_ok_cursorAt⟩

/-- Witness for `string_char_literal_errors`: the unterminated string `"ab`
and the well-formed char literal `'a'`. -/
theorem string_char_literal_errors_witness :
    (cursorAt ['"', 'a', 'b'] 0 []).consume_string_literal =
      .error ⟨LexicalErrorType.UnexpectedStringEnd,
        ⟨0, 0 + 1 + (((['"', 'a', 'b'] : Str).drop (0 + 1)).takeWhile not_quote).length⟩⟩ ∧
    (cursorAt ['\'', 'a', '\''] 0 []).consume_char_literal =
      .ok ((0, Token.Char 'a', 0 + 3), cursorAt ['\'', 'a', '\''] (0 + 3) []) :=
  ⟨string_char_literal_errors.1 ['"', 'a', 'b'] 0 [] (by decide) (by decide),
   string_char_literal_errors.2.2.2.2.1 ['\'', 'a', '\''] 0 [] 'a' (by decide) (by decide)
     (by decide) (by decide)⟩

/-- A radix prefix (optionally signed) lexes, at end of input and before any
whitespace character, as a single `Int` token of the given base whose value
text is exactly the prefix. -/
def prefixLexesAsInt (s : Str) (b : Base) : Prop :=
  (Lexer.new (mkStream s)).nextToken = some (0, Token.Int b s, s.length) ∧
  ∀ c, is_whitespace c = true →
    (Lexer.new (mkStream (s ++ [c]))).nextToken = some (0, Token.Int b s, s.length)

/-- Claim C10: a radix prefix with no digits after it is accepted, not
rejected — `"0x"`, `"0o"`, `"0b"`, optionally preceded by a sign, followed by
whitespace or end of input, lex as an `Int` token of the corresponding base
whose value text is just the prefix itself, because the FSM's
`Hex`/`Oct`/`Bin` states are terminable immediately after the radix marker. -/
theorem radix_prefix_without_digits_accepted :
    prefixLexesAsInt ['0', 'x'] Base.Hexadecimal ∧
    prefixLexesAsInt ['0', 'o'] Base.Octal ∧
    prefixLexesAsInt ['0', 'b'] Base.Binary ∧
    prefixLexesAsInt ['+', '0', 'x'] Base.Hexadecimal ∧
    prefixLexesAsInt ['+', '0', 'o'] Base.Octal ∧
    prefixLexesAsInt ['+', '0', 'b'] Base.Binary ∧
    prefixLexesAsInt ['-', '0', 'x'] Base.Hexadecimal ∧
    prefixLexesAsInt ['-', '0', 'o'] Base.Octal ∧
    prefixLexesAsInt ['-', '0', 'b'] Base.Binary ∧
    State.Hex.terminable = true ∧ State.Oct.terminable = true ∧
    State.Bin.terminable = true := by
  refine ⟨⟨rfl, ?_⟩, ⟨rfl, ?_⟩, ⟨rfl, ?_⟩, ⟨rfl, ?_⟩, ⟨rfl, ?_⟩, ⟨rfl, ?_⟩,
    ⟨rfl, ?_⟩, ⟨rfl, ?_⟩, ⟨rfl, ?_⟩, rfl, rfl, rfl⟩ <;>
  · intro c h
    simp [Lexer.nextToken, Lexer.next, Lexer.advance_token, ws_loop,
      Lexer._advance_token, Lexer.number_path, Lexer.consume_number_like, number_loop,
      state_transition, State.terminable, end_token, Lexer.consume, Lexer.new,
      mkStream, mkStreamFrom, Lexer.emit, Lexer.get_pos, Lexer.next_chr_is,
      is_ascii_digit, is_id_start, xid_start, Lexer.consume_expect_token,
      Lexer.consumeN, h,
      show is_whitespace '0' = false from rfl,
      show is_whitespace 'x' = false from rfl,
      show is_whitespace 'o' = false from rfl,
      show is_whitespace 'b' = false from rfl,
      show is_whitespace '+' = false from rfl,
      show is_whitespace '-' = false from rfl]

/-- Witness for `radix_prefix_without_digits_accepted`: `"0x "` lexes as the
hexadecimal `Int` token `"0x"`. -/
theorem radix_prefix_without_digits_accepted_witness :
    (Lexer.new (mkStream ((['0', 'x'] : Str) ++ [' ']))).nextToken =
      some (0, Token.Int Base.Hexadecimal ['0', 'x'], (['0', 'x'] : Str).length) :=
  radix_prefix_without_digits_accepted.1.2 ' ' (by decide)

/-! ## A successful advance step always enqueues a token

These lemmas justify writing `Lexer.next` as a single advance round: on any
lexer state whatsoever, a successful `advance_token` leaves the pending queue
non-empty, so the source's `while pending.is_empty()` loop body runs at most
once and `next`'s final arm is dead. -/

theorem consume_pending (l : Lexer) : l.consume.2.pending = l.pending := by
  rcases h : l.stream with _ | ⟨⟨loc, c⟩, rest⟩ <;> simp [Lexer.consume, h]

theorem consumeN_pending : ∀ (k : Nat) (l : Lexer), (l.consumeN k).pending = l.pending := by
  intro k
  induction k with
  | zero => intro l; rfl
  | succ k ih =>
    intro l
    rw [show l.consumeN (k + 1) = l.consume.2.consumeN k from rfl, ih, consume_pending]

theorem consume_expect_token_pending (l : Lexer) (tok : Token) (k : Nat) :
    (l.consume_expect_token tok k).pending =
      l.pending ++ [(l.get_pos, tok, (l.consumeN k).get_pos)] := by
  simp [Lexer.consume_expect_token, Lexer.emit, consumeN_pending]

theorem comment_loop_pending : ∀ (fuel : Nat) (l : Lexer) (content : Str),
    (comment_loop fuel l content).1.pending = l.pending := by
  intro fuel
  induction fuel with
  | zero => intro l content; rfl
  | succ fuel ih =>
    intro l content
    by_cases hnl : l.chr0 = some '\n'
    · simp [comment_loop, hnl]
    · rcases hc : l.chr0 with _ | c
      · simp [comment_loop, hnl, hc]
      · have hcn : ¬ c = '\n' := by intro hce; rw [hce] at hc; exact hnl hc
        simp [comment_loop, hc, hcn, ih, consume_pending]

theorem ident_loop_pending : ∀ (fuel : Nat) (l : Lexer) (name : Str),
    (ident_loop fuel l name).1.pending = l.pending := by
  intro fuel
  induction fuel with
  | zero => intro l name; rfl
  | succ fuel ih =>
    intro l name
    rcases hc : l.chr0 with _ | c
    · simp [ident_loop, hc]
    · by_cases hid : is_id_continue c <;> simp [ident_loop, hc, hid, ih, consume_pending]

theorem string_loop_pending : ∀ (fuel : Nat) (l : Lexer) (value : Str),
    (string_loop fuel l value).1.pending = l.pending := by
  intro fuel
  induction fuel with
  | zero => intro l value; rfl
  | succ fuel ih =>
    intro l value
    rcases hc : l.chr0 with _ | c
    · simp [string_loop, hc]
    · by_cases hq : c = '"' <;> simp [string_loop, hc, hq, ih, consume_pending]

theorem number_loop_pending (start : LOC) : ∀ (fuel : Nat) (l : Lexer) (st : State)
    (v : Str) (prev : Option Chr) (st' : State) (v' : Str) (l' : Lexer),
    number_loop start fuel l st v prev = .ok (st', v', l') → l'.pending = l.pending := by
  intro fuel
  induction fuel with
  | zero =>
    intro l st v prev st' v' l' h
    injection h with h
    injection h with h1 h
    injection h with h2 h3
    rw [← h3]
  | succ fuel ih =>
    intro l st v prev st' v' l' h
    by_cases hEnd : state_transition st l.chr0 = State.End
    · simp only [number_loop, hEnd, if_pos rfl, if_true] at h
      injection h with h
      injection h with h1 h
      injection h with h2 h3
      rw [← h3]
    · by_cases hErr : state_transition st l.chr0 = State.Error
      · rcases hc : l.chr0 with _ | c <;>
          rw [hc] at hEnd hErr <;>
          simp only [number_loop, hc, hEnd, hErr, if_neg, if_pos, if_true, if_false,
            reduceCtorEq] at h
      · simp only [number_loop, hEnd, hErr, if_neg, if_false] at h
        rw [ih _ _ _ _ _ _ _ h, consume_pending]

theorem consume_comment_or_doc_pending (l : Lexer) :
    l.consume_comment_or_doc.2.pending = l.pending := by
  by_cases h : l.consume.2.chr1 = some '/' <;>
    simp [Lexer.consume_comment_or_doc, h, comment_loop_pending, consume_pending]

theorem consume_ident_or_keyword_pending (l : Lexer) :
    l.consume_ident_or_keyword.2.pending = l.pending := by
  unfold Lexer.consume_ident_or_keyword
  rcases hk : Token.try_from_keywords (ident_loop (l.consume.2.stream.length + 3)
      l.consume.2 (match l.chr0 with | some c => [c] | none => [])).2 with _ | tok <;>
    simp [hk, ident_loop_pending, consume_pending]

theorem consume_char_literal_pending (l : Lexer) (sp : Spanned) (l' : Lexer)
    (h : l.consume_char_literal = .ok (sp, l')) : l'.pending = l.pending := by
  rcases hc : l.consume.2.chr0 with _ | c
  · simp only [Lexer.consume_char_literal, hc] at h
    exact Except.noConfusion h
  · simp only [Lexer.consume_char_literal, hc] at h
    split_ifs at h <;> try exact Except.noConfusion h
    injection h with h
    injection h with h1 h2
    rw [← h2, consume_pending, consume_pending, consume_pending]

theorem consume_string_literal_pending (l : Lexer) (sp : Spanned) (l' : Lexer)
    (h : l.consume_string_literal = .ok (sp, l')) : l'.pending = l.pending := by
  simp only [Lexer.consume_string_literal] at h
  split_ifs at h <;> try exact Except.noConfusion h
  injection h with h
  injection h with h1 h2
  rw [← h2, consume_pending, string_loop_pending, consume_pending]

theorem consume_number_like_pending (l : Lexer) (sp : Spanned) (l' : Lexer)
    (h : l.consume_number_like = .ok (sp, l')) : l'.pending = l.pending := by
  rcases hr : number_loop l.get_pos (l.stream.length + 3) l State.Start [] none with
    e | ⟨st, v, l2⟩
  · simp only [Lexer.consume_number_like, hr] at h
    exact Except.noConfusion h
  · rcases hk : end_token st v with _ | tok
    · simp only [Lexer.consume_number_like, hr, hk] at h
      exact Except.noConfusion h
    · simp only [Lexer.consume_number_like, hr, hk] at h
      injection h with h
      injection h with h1 h2
      rw [← h2]
      exact number_loop_pending l.get_pos _ l State.Start [] none st v l2 hr

theorem number_path_pending (l : Lexer) (l' : Lexer)
    (h : l.number_path = .ok l') : ∃ t, l'.pending = l.pending ++ [t] := by
  unfold Lexer.number_path at h
  rcases hr : l.consume_number_like with e | ⟨sp, l2⟩ <;> rw [hr] at h
  · exact Except.noConfusion h
  · injection h with h
    refine ⟨sp, ?_⟩
    rw [← h]
    simp [Lexer.emit, consume_number_like_pending l sp l2 hr]

set_option maxHeartbeats 1600000 in
theorem advance_one_pending (l : Lexer) (l' : Lexer)
    (h : l._advance_token = .ok l') : ∃ t, l'.pending = l.pending ++ [t] := by
  rw [Lexer._advance_token.eq_def] at h
  split at h
  case h_1 => exact Except.noConfusion h
  rename_i c0 hc0
  by_cases h1 : c0 = '('
  · rw [if_pos h1] at h
    injection h with h
    exact ⟨_, by rw [← h, consume_expect_token_pending]⟩
  rw [if_neg h1] at h
  by_cases h2 : c0 = ')'
  · rw [if_pos h2] at h
    injection h with h
    exact ⟨_, by rw [← h, consume_expect_token_pending]⟩
  rw [if_neg h2] at h
  by_cases h3 : c0 = '['
  · rw [if_pos h3] at h
    injection h with h
    exact ⟨_, by rw [← h, consume_expect_token_pending]⟩
  rw [if_neg h3] at h
  by_cases h4 : c0 = ']'
  · rw [if_pos h4] at h
    injection h with h
    exact ⟨_, by rw [← h, consume_expect_token_pending]⟩
  rw [if_neg h4] at h
  by_cases h5 : c0 = '\x7b'
  · rw [if_pos h5] at h
    injection h with h
    exact ⟨_, by rw [← h, consume_expect_token_pending]⟩
  rw [if_neg h5] at h
  by_cases h6 : c0 = '\x7d'
  · rw [if_pos h6] at h
    injection h with h
    exact ⟨_, by rw [← h, consume_expect_token_pending]⟩
  rw [if_neg h6] at h
  by_cases h7 : c0 = ':'
  · rw [if_pos h7] at h
    injection h with h
    exact ⟨_, by rw [← h, consume_expect_token_pending]⟩
  rw [if_neg h7] at h
  by_cases h8 : c0 = '@'
  · rw [if_pos h8] at h
    injection h with h
    exact ⟨_, by rw [← h, consume_expect_token_pending]⟩
  rw [if_neg h8] at h
  by_cases h9 : c0 = '%'
  · rw [if_pos h9] at h
    injection h with h
    exact ⟨_, by rw [← h, consume_expect_token_pending]⟩
  rw [if_neg h9] at h
  by_cases h10 : c0 = ','
  · rw [if_pos h10] at h
    injection h with h
    exact ⟨_, by rw [← h, consume_expect_token_pending]⟩
  rw [if_neg h10] at h
  by_cases h11 : c0 = '#'
  · rw [if_pos h11] at h
    injection h with h
    exact ⟨_, by rw [← h, consume_expect_token_pending]⟩
  rw [if_neg h11] at h
  by_cases h12 : c0 = ';'
  · rw [if_pos h12] at h
    injection h with h
    exact ⟨_, by rw [← h, consume_expect_token_pending]⟩
  rw [if_neg h12] at h
  by_cases h13 : c0 = '&'
  · rw [if_pos h13] at h
    injection h with h
    exact ⟨_, by rw [← h, consume_expect_token_pending]⟩
  rw [if_neg h13] at h
  by_cases h14 : c0 = '?'
  · rw [if_pos h14] at h
    injection h with h
    exact ⟨_, by rw [← h, consume_expect_token_pending]⟩
  rw [if_neg h14] at h
  by_cases h15 : c0 = '+'
  · rw [if_pos h15] at h
    by_cases g : (l.next_chr_is fun c => is_ascii_digit c || decide (c = '.')) = true
    · rw [if_pos g] at h
      exact number_path_pending l l' h
    rw [if_neg g] at h
    injection h with h
    exact ⟨_, by rw [← h, consume_expect_token_pending]⟩
  rw [if_neg h15] at h
  by_cases h16 : c0 = '-'
  · rw [if_pos h16] at h
    by_cases g : (l.next_chr_is fun c => is_ascii_digit c || decide (c = '.')) = true
    · rw [if_pos g] at h
      exact number_path_pending l l' h
    rw [if_neg g] at h
    by_cases g2 : l.chr1 = some '>'
    · rw [if_pos g2] at h
      injection h with h
      exact ⟨_, by rw [← h, consume_expect_token_pending]⟩
    rw [if_neg g2] at h
    injection h with h
    exact ⟨_, by rw [← h, consume_expect_token_pending]⟩
  rw [if_neg h16] at h
  by_cases h17 : c0 = '='
  · rw [if_pos h17] at h
    by_cases g : l.chr1 = some '='
    · rw [if_pos g] at h
      injection h with h
      exact ⟨_, by rw [← h, consume_expect_token_pending]⟩
    rw [if_neg g] at h
    injection h with h
    exact ⟨_, by rw [← h, consume_expect_token_pending]⟩
  rw [if_neg h17] at h
  by_cases h18 : c0 = '!'
  · rw [if_pos h18] at h
    by_cases g : l.chr1 = some '='
    · rw [if_pos g] at h
      injection h with h
      exact ⟨_, by rw [← h, consume_expect_token_pending]⟩
    rw [if_neg g] at h
    injection h with h
    exact ⟨_, by rw [← h, consume_expect_token_pending]⟩
  rw [if_neg h18] at h
  by_cases h19 : c0 = '|'
  · rw [if_pos h19] at h
    by_cases g : l.chr1 = some '>'
    · rw [if_pos g] at h
      injection h with h
      exact ⟨_, by rw [← h, consume_expect_token_pending]⟩
    rw [if_neg g] at h
    injection h with h
    exact ⟨_, by rw [← h, consume_expect_token_pending]⟩
  rw [if_neg h19] at h
  by_cases h20 : c0 = '<'
  · rw [if_pos h20] at h
    by_cases g : l.chr1 = some '='
    · rw [if_pos g] at h
      injection h with h
      exact ⟨_, by rw [← h, consume_expect_token_pending]⟩
    rw [if_neg g] at h
    by_cases g2 : l.chr1 = some '-'
    · rw [if_pos g2] at h
      injection h with h
      exact ⟨_, by rw [← h, consume_expect_token_pending]⟩
    rw [if_neg g2] at h
    injection h with h
    exact ⟨_, by rw [← h, consume_expect_token_pending]⟩
  rw [if_neg h20] at h
  by_cases h21 : c0 = '>'
  · rw [if_pos h21] at h
    by_cases g : l.chr1 = some '='
    · rw [if_pos g] at h
      injection h with h
      exact ⟨_, by rw [← h, consume_expect_token_pending]⟩
    rw [if_neg g] at h
    injection h with h
    exact ⟨_, by rw [← h, consume_expect_token_pending]⟩
  rw [if_neg h21] at h
  by_cases h22 : c0 = '.'
  · rw [if_pos h22] at h
    by_cases g : l.next_chr_is is_ascii_digit = true
    · rw [if_pos g] at h
      exact number_path_pending l l' h
    rw [if_neg g] at h
    by_cases g2 : l.chr1 = some '.'
    · rw [if_pos g2] at h
      injection h with h
      exact ⟨_, by rw [← h, consume_expect_token_pending]⟩
    rw [if_neg g2] at h
    injection h with h
    exact ⟨_, by rw [← h, consume_expect_token_pending]⟩
  rw [if_neg h22] at h
  by_cases h23 : c0 = '/'
  · rw [if_pos h23] at h
    by_cases g : l.chr1 = some '/'
    · rw [if_pos g] at h
      rcases hp : l.consume_comment_or_doc with ⟨sp, l2⟩
      rw [hp] at h
      injection h with h
      have hpend : l2.pending = l.pending := by
        have hq := consume_comment_or_doc_pending l
        rw [hp] at hq
        exact hq
      refine ⟨sp, ?_⟩
      rw [← h]
      simp [Lexer.emit, hpend]
    rw [if_neg g] at h
    injection h with h
    exact ⟨_, by rw [← h, consume_expect_token_pending]⟩
  rw [if_neg h23] at h
  by_cases h24 : c0 = '\"'
  · rw [if_pos h24] at h
    rcases hs : l.consume_string_literal with e | ⟨sp, l2⟩ <;> rw [hs] at h
    · exact Except.noConfusion h
    · injection h with h
      refine ⟨sp, ?_⟩
      rw [← h]
      simp [Lexer.emit, consume_string_literal_pending l sp l2 hs]
  rw [if_neg h24] at h
  by_cases h25 : c0 = '\''
  · rw [if_pos h25] at h
    rcases hs : l.consume_char_literal with e | ⟨sp, l2⟩ <;> rw [hs] at h
    · exact Except.noConfusion h
    · injection h with h
      refine ⟨sp, ?_⟩
      rw [← h]
      simp [Lexer.emit, consume_char_literal_pending l sp l2 hs]
  rw [if_neg h25] at h
  by_cases h26 : is_id_start c0 = true
  · rw [if_pos h26] at h
    rcases hp : l.consume_ident_or_keyword with ⟨sp, l2⟩
    rw [hp] at h
    injection h with h
    have hpend : l2.pending = l.pending := by
      have hq := consume_ident_or_keyword_pending l
      rw [hp] at hq
      exact hq
    refine ⟨sp, ?_⟩
    rw [← h]
    simp [Lexer.emit, hpend]
  rw [if_neg h26] at h
  by_cases h27 : is_ascii_digit c0 = true
  · rw [if_pos h27] at h
    exact number_path_pending l l' h
  rw [if_neg h27] at h
  exact Except.noConfusion h

theorem ws_loop_pending : ∀ (fuel : Nat) (l : Lexer),
    ∃ ext, (ws_loop fuel l).pending = l.pending ++ ext := by
  intro fuel
  induction fuel with
  | zero => intro l; exact ⟨[], by simp [ws_loop]⟩
  | succ fuel ih =>
    intro l
    rcases hc : l.chr0 with _ | c
    · exact ⟨[], by simp [ws_loop, hc]⟩
    · by_cases hws : is_whitespace c
      · by_cases hnl : c = '\n'
        · subst hnl
          rcases ih (l.consume.2.emit (l.get_pos, Token.NewLine, l.consume.2.get_pos)) with
            ⟨ext, hext⟩
          refine ⟨(l.get_pos, Token.NewLine, l.consume.2.get_pos) :: ext, ?_⟩
          have hwsn : is_whitespace '\n' = true := by decide
          have hstep : ws_loop (fuel + 1) l =
              ws_loop fuel (l.consume.2.emit (l.get_pos, Token.NewLine, l.consume.2.get_pos)) := by
            simp [ws_loop, hc, hwsn]
          rw [hstep, hext]
          simp [Lexer.emit, consume_pending]
        · rcases ih l.consume.2 with ⟨ext, hext⟩
          refine ⟨ext, ?_⟩
          have hstep : ws_loop (fuel + 1) l = ws_loop fuel l.consume.2 := by
            simp [ws_loop, hc, hws, hnl]
          rw [hstep, hext, consume_pending]
      · exact ⟨[], by simp [ws_loop, hc, hws]⟩

/-- On any lexer state, a successful `advance_token` leaves the pending queue
non-empty: the `while pending.is_empty()` loop in the source's `next` runs
its body at most once, so the single-round `Lexer.next` above is faithful and
its final arm is dead. -/
theorem advance_token_pending_ne (l : Lexer) (l' : Lexer)
    (h : l.advance_token = .ok l') : l'.pending ≠ [] := by
  rcases hc : (ws_loop (l.stream.length + 3) l).chr0 with _ | c
  · simp only [Lexer.advance_token, hc] at h
    injection h with h
    rw [← h]
    simp [Lexer.emit]
  · simp only [Lexer.advance_token, hc] at h
    rcases advance_one_pending _ _ h with ⟨t, ht⟩
    rw [ht]
    simp

end Shizuku
